import Mathlib

/-!
Verification of the itinerary planning core of the tour recommendation agent
(`src/agent/planner.py`): the catalog matcher and orchestrator
(`find_best_plan`), the fallback synthesizer (`generate_fallback_tour`) and
the route reordering pass (`optimize_activity_order`).

The Python code is embedded shallowly: dictionaries become structures,
Python ints become Nat/Int, Python floats (prices, budgets, coordinates)
become exact rationals, the mutable loop state of the synthesizer becomes an
explicit state record threaded through recursive functions, and the in-place
mutation of the chosen catalog package performed by `find_best_plan` is made
observable by returning the post-call catalog alongside the result.
-/

namespace TourAgent

/-- One scheduled event, mirroring the activity dictionaries built by
`generate_fallback_tour` and consumed by `optimize_activity_order`
(keys: day, time, name, city, cost, lat, lon). -/
structure Activity where
  day : ℕ
  time : String
  name : String
  city : String
  cost : ℚ
  lat : ℚ
  lon : ℚ
deriving DecidableEq

/-- An itinerary package, mirroring the package dictionaries of the catalog
and the dictionary returned by `generate_fallback_tour`
(keys: id, name, days, price, destinations, interests, activities,
explanation). -/
structure Package where
  id : String
  name : String
  days : ℕ
  price : ℚ
  destinations : List String
  interests : List String
  activities : List Activity
  explanation : String
deriving DecidableEq

/-- The traveler goals after the defaulting/parsing step at the top of
`find_best_plan` (target days, budget, interest tags, excluded package ids). -/
structure Goals where
  days : ℕ
  budget : ℚ
  interests : List String
  excluded : List String
deriving DecidableEq

/-- The dictionary returned by `find_best_plan` (keys: package, score,
explanation). -/
structure PlanResult where
  package : Package
  score : ℤ
  explanation : String
deriving DecidableEq

/-- One entry of a static activity pool: time slot, name, cost
(the tuples in `BACKUP_ACTS`). -/
structure PoolEnt where
  time : String
  name : String
  cost : ℕ
deriving DecidableEq

/-- The ordered static city list `BACKUP_CITIES`. -/
def BACKUP_CITIES : List String :=
  ["Colombo", "Sigiriya", "Kandy", "Ella", "Yala", "Mirissa", "Galle",
   "Nuwara Eliya", "Anuradhapura", "Trincomalee"]

/-- The static coordinate table `CITY_COORDS`; unknown cities default to
(0, 0), mirroring `CITY_COORDS.get(city, {"lat": 0, "lon": 0})`. -/
def CITY_COORDS (city : String) : ℚ × ℚ :=
  if city = "Colombo" then (mkRat 6927 1000, mkRat 79861 1000)
  else if city = "Kandy" then (mkRat 7290 1000, mkRat 80633 1000)
  else if city = "Sigiriya" then (mkRat 7957 1000, mkRat 80760 1000)
  else if city = "Ella" then (mkRat 6866 1000, mkRat 81046 1000)
  else if city = "Mirissa" then (mkRat 5948 1000, mkRat 80471 1000)
  else if city = "Galle" then (mkRat 6053 1000, mkRat 80221 1000)
  else if city = "Yala" then (mkRat 6383 1000, mkRat 81500 1000)
  else if city = "Nuwara Eliya" then (mkRat 6949 1000, mkRat 80789 1000)
  else if city = "Anuradhapura" then (mkRat 8335 1000, mkRat 80403 1000)
  else if city = "Trincomalee" then (mkRat 8588 1000, mkRat 81218 1000)
  else (0, 0)

/-- The static activity pool table `BACKUP_ACTS`; unknown cities default to
the empty pool, mirroring `BACKUP_ACTS.get(city, [])`. -/
def BACKUP_ACTS (city : String) : List PoolEnt :=
  if city = "Colombo" then
    [⟨"Morning", "Gangaramaya Temple", 10⟩, ⟨"Afternoon", "National Museum", 15⟩, ⟨"Evening", "Galle Face Walk", 0⟩,
     ⟨"Morning", "Viharamahadevi Park", 0⟩, ⟨"Afternoon", "Independence Square", 5⟩, ⟨"Evening", "Pettah Market Tour", 10⟩,
     ⟨"Morning", "Colombo City Tour", 20⟩, ⟨"Afternoon", "Shopping at Odel", 0⟩, ⟨"Evening", "Dutch Hospital Dining", 30⟩]
  else if city = "Sigiriya" then
    [⟨"Morning", "Sigiriya Rock Fortress", 30⟩, ⟨"Afternoon", "Pidurangala Rock", 25⟩, ⟨"Evening", "Village Tour", 20⟩,
     ⟨"Morning", "Dambulla Cave Temple", 20⟩, ⟨"Afternoon", "Minneriya Safari", 50⟩, ⟨"Evening", "Ayurvedic Massage", 40⟩,
     ⟨"Morning", "Ancient Ruins Walk", 15⟩, ⟨"Afternoon", "Spice Garden Visit", 10⟩, ⟨"Evening", "Traditional Cooking Class", 35⟩]
  else if city = "Kandy" then
    [⟨"Morning", "Temple of Tooth", 15⟩, ⟨"Afternoon", "Botanical Gardens", 15⟩, ⟨"Evening", "Kandy Lake Walk", 0⟩,
     ⟨"Morning", "Tea Factory Tour", 25⟩, ⟨"Afternoon", "Elephant Sanctuary", 30⟩, ⟨"Evening", "Cultural Dance Show", 20⟩,
     ⟨"Morning", "Bahiravokanda Temple", 10⟩, ⟨"Afternoon", "Royal Palace Museum", 10⟩, ⟨"Evening", "Shopping at Kandy City", 0⟩]
  else if city = "Ella" then
    [⟨"Morning", "Ella Rock Hike", 0⟩, ⟨"Afternoon", "Nine Arch Bridge", 0⟩, ⟨"Evening", "Little Adam's Peak", 0⟩,
     ⟨"Morning", "Ravana Falls", 5⟩, ⟨"Afternoon", "Demodara Loop", 0⟩, ⟨"Evening", "Ella Town Cafe Hopping", 25⟩,
     ⟨"Morning", "Tea Plantation Walk", 10⟩, ⟨"Afternoon", "Flying Ravana Zipline", 45⟩, ⟨"Evening", "Sunset Viewpoint", 0⟩]
  else if city = "Yala" then
    [⟨"Morning", "Yala Safari - Leopards", 60⟩, ⟨"Afternoon", "Bird Watching Tour", 40⟩, ⟨"Evening", "Beach Camping", 80⟩,
     ⟨"Morning", "Bundala National Park", 50⟩, ⟨"Afternoon", "Elephant Gathering", 45⟩, ⟨"Evening", "Star Gazing", 20⟩,
     ⟨"Morning", "Nature Trail Walk", 15⟩, ⟨"Afternoon", "Photography Safari", 55⟩, ⟨"Evening", "BBQ by the Lake", 40⟩]
  else if city = "Mirissa" then
    [⟨"Morning", "Whale Watching", 70⟩, ⟨"Afternoon", "Secret Beach", 0⟩, ⟨"Evening", "Beach Sunset", 0⟩,
     ⟨"Morning", "Snorkeling Trip", 40⟩, ⟨"Afternoon", "Coconut Tree Hill", 5⟩, ⟨"Evening", "Seafood Dinner", 30⟩,
     ⟨"Morning", "Surfing Lessons", 35⟩, ⟨"Afternoon", "Beach Volleyball", 0⟩, ⟨"Evening", "Night Beach Walk", 0⟩]
  else if city = "Galle" then
    [⟨"Morning", "Galle Fort Tour", 10⟩, ⟨"Afternoon", "Unawatuna Beach", 0⟩, ⟨"Evening", "Lighthouse Sunset", 0⟩,
     ⟨"Morning", "Dutch Museum", 8⟩, ⟨"Afternoon", "Jungle Beach Trek", 15⟩, ⟨"Evening", "Fort Ramparts Walk", 0⟩,
     ⟨"Morning", "Hikkaduwa Turtle Hatchery", 20⟩, ⟨"Afternoon", "Coral Reef Snorkeling", 45⟩, ⟨"Evening", "Shopping in Fort", 0⟩]
  else if city = "Nuwara Eliya" then
    [⟨"Morning", "Gregory Lake Boat Ride", 15⟩, ⟨"Afternoon", "Victoria Park", 5⟩, ⟨"Evening", "Strawberry Farm", 10⟩,
     ⟨"Morning", "Horton Plains Trek", 35⟩, ⟨"Afternoon", "Pedro Tea Estate", 20⟩, ⟨"Evening", "Town Walk", 0⟩,
     ⟨"Morning", "World's End Viewpoint", 25⟩, ⟨"Afternoon", "Ramboda Falls", 5⟩, ⟨"Evening", "Colonial Bungalow Tour", 15⟩]
  else if city = "Anuradhapura" then
    [⟨"Morning", "Sacred Bo Tree", 0⟩, ⟨"Afternoon", "Ruwanwelisaya Stupa", 0⟩, ⟨"Evening", "Ancient Ruins Cycling", 15⟩,
     ⟨"Morning", "Twin Ponds", 0⟩, ⟨"Afternoon", "Abhayagiri Monastery", 5⟩, ⟨"Evening", "Moonstone Museum", 10⟩,
     ⟨"Morning", "Isurumuniya Temple", 8⟩, ⟨"Afternoon", "Archaeological Museum", 10⟩, ⟨"Evening", "Sunset at Reservoir", 0⟩]
  else if city = "Trincomalee" then
    [⟨"Morning", "Nilaveli Beach", 0⟩, ⟨"Afternoon", "Pigeon Island Snorkeling", 45⟩, ⟨"Evening", "Beach Sunset", 0⟩,
     ⟨"Morning", "Koneswaram Temple", 5⟩, ⟨"Afternoon", "Fort Frederick", 5⟩, ⟨"Evening", "Marble Beach", 0⟩,
     ⟨"Morning", "Whale Watching", 60⟩, ⟨"Afternoon", "Hot Springs Visit", 10⟩, ⟨"Evening", "Seafood BBQ", 35⟩]
  else []

/-- Python `int(q)` on a float modelled as a rational: truncation toward
zero (`q.num` and `q.den` are coprime and `q.den > 0`, and `Int` division
rounds toward zero). -/
def pyInt (q : ℚ) : ℤ := q.num / (q.den : ℤ)

/-- The mutable loop state of `generate_fallback_tour`: the route list, the
emitted activities, the running integer cost, the used-activity key set
(keys `(city, name, day)` mirroring the f-string key), and the current day. -/
structure GenSt where
  route : List String
  acts : List Activity
  cost : ℕ
  used : List (String × String × ℕ)
  day : ℕ
deriving DecidableEq

/-- Indexing a pool; total via a junk default, which is never reached on the
cities of `BACKUP_CITIES` because their pools are non-empty. -/
def poolGet (pool : List PoolEnt) (i : ℕ) : PoolEnt := pool.getD i ⟨"", "", 0⟩

/-- The duplicate-avoidance retry loop of `generate_fallback_tour`: while the
key `(city, name, day)` is already used and fewer than `pool.length` retries
have happened, advance the rotating index modulo the pool length. The fuel
argument is the remaining retry budget, initially `pool.length`. -/
def retryLoop (pool : List PoolEnt) (used : List (String × String × ℕ))
    (city : String) (day : ℕ) : ℕ → ℕ → ℕ
  | 0, idx => idx
  | fuel + 1, idx =>
    if (city, (poolGet pool idx).name, day) ∈ used then
      retryLoop pool used city day fuel ((idx + 1) % pool.length)
    else idx

/-- Emission of a single activity (one iteration of the `for time_slot in
range(3)` body): normalize the rotating index, run the retry loop, record
the key, append the activity and its cost, and advance the index. -/
def slotEmit (city : String) (pool : List PoolEnt) (lat lon : ℚ)
    (idx : ℕ) (st : GenSt) : ℕ × GenSt :=
  let i0 := if pool.length ≤ idx then 0 else idx
  let i1 := retryLoop pool st.used city st.day pool.length i0
  let e := poolGet pool i1
  (i1 + 1,
   { st with
     acts := st.acts ++ [⟨st.day, e.time, e.name, city, (e.cost : ℚ), lat, lon⟩],
     cost := st.cost + e.cost,
     used := (city, e.name, st.day) :: st.used })

/-- Emission of one full day (three slots) followed by the day increment. -/
def dayEmit (city : String) (pool : List PoolEnt) (lat lon : ℚ)
    (idx : ℕ) (st : GenSt) : ℕ × GenSt :=
  let r1 := slotEmit city pool lat lon idx st
  let r2 := slotEmit city pool lat lon r1.1 r1.2
  let r3 := slotEmit city pool lat lon r2.1 r2.2
  (r3.1, { r3.2 with day := r3.2.day + 1 })

/-- The `for day_in_city in range(num_days)` loop: emit full days, breaking
as soon as the day counter passes `target`. -/
def daysEmit (city : String) (pool : List PoolEnt) (lat lon : ℚ)
    (target : ℕ) : ℕ → ℕ → GenSt → ℕ × GenSt
  | 0, idx, st => (idx, st)
  | n + 1, idx, st =>
    let r := dayEmit city pool lat lon idx st
    if target < r.2.day then r
    else daysEmit city pool lat lon target n r.1 r.2

/-- The primary allocation walk of `generate_fallback_tour`: for each
`(city, num_days)` pair append the city to the route, emit its days with a
fresh rotating index, and break once the day counter passes `target`. -/
def citiesEmit (target : ℕ) : List (String × ℕ) → GenSt → GenSt
  | [], st => st
  | (c, n) :: rest, st =>
    let st0 := { st with route := st.route ++ [c] }
    let r := daysEmit c (BACKUP_ACTS c) (CITY_COORDS c).1 (CITY_COORDS c).2 target n 0 st0
    if target < r.2.day then r.2
    else citiesEmit target rest r.2

/-- Day allocation across the selected cities: each city receives at most
`MAX_DAYS_PER_CITY = 2` days (the last city keeps the same `min` bound),
stopping when no days remain. -/
def allocate : List String → ℕ → List (String × ℕ)
  | [], _ => []
  | c :: rest, remaining =>
    if remaining = 0 then []
    else
      let d := if rest = [] then min remaining 2 else min 2 remaining
      (c, d) :: allocate rest (remaining - d)

/-- City selection: `ceil(target_days / 2)` cities from `BACKUP_CITIES`,
cycling through the list when more cities are needed than it contains. -/
def selectCities (target : ℕ) : List String :=
  let num := (target + 1) / 2
  if BACKUP_CITIES.length < num then
    ((List.replicate (num / BACKUP_CITIES.length + 1) BACKUP_CITIES).flatten).take num
  else BACKUP_CITIES.take num

/-- The secondary phase of `generate_fallback_tour`: if the day counter has
not yet passed `target`, walk additional cities, giving each at most
`min 2 (target - current_day + 1)` days. -/
def phase2Emit (target : ℕ) : List String → GenSt → GenSt
  | [], st => st
  | c :: rest, st =>
    if target < st.day then st
    else
      let st0 := { st with route := st.route ++ [c] }
      let n := min 2 (target + 1 - st.day)
      let r := daysEmit c (BACKUP_ACTS c) (CITY_COORDS c).1 (CITY_COORDS c).2 target n 0 st0
      phase2Emit target rest r.2

/-- Structural worker for `dedupCities`; the fuel argument only serves
termination and is never exhausted when it starts at the list length,
because filtering only shortens the list. -/
def dedupAux : ℕ → List Activity → List String
  | _, [] => []
  | 0, _ :: _ => []
  | fuel + 1, a :: rest =>
    a.city :: dedupAux fuel (rest.filter (fun b => ¬ (b.city = a.city)))

/-- First-appearance deduplication of the cities of an activity list, used
both for the synthesizer's destination list and for the optimizer's city
order (both Python loops keep a `seen` set and append unseen cities). -/
def dedupCities (l : List Activity) : List String := dedupAux l.length l

/-- The complete activity-generation state of `generate_fallback_tour`
(selection, allocation, primary walk, secondary walk); it does not depend on
the budget or the interest list. -/
def fallbackState (target : ℕ) : GenSt :=
  let alloc := allocate (selectCities target) target
  let st1 := citiesEmit target alloc ⟨[], [], 0, [], 1⟩
  if st1.day ≤ target then
    let usedCities := alloc.map Prod.fst
    let avail := BACKUP_CITIES.filter (fun c => ¬ (c ∈ usedCities))
    let avail2 := if avail = [] then BACKUP_CITIES.take 3 else avail
    phase2Emit target avail2 st1
  else st1

/-- The fallback synthesizer `generate_fallback_tour`: generate the
activities, reconcile the cost with the budget (`int(target_budget)` when the
raw cost is below it, the raw integer cost otherwise), and assemble the
package dictionary. -/
def generate_fallback_tour (target : ℕ) (budget : ℚ) (interests : List String) :
    Package :=
  let st := fallbackState target
  let price : ℤ := if (st.cost : ℚ) < budget then pyInt budget else (st.cost : ℤ)
  let destinations := dedupCities st.acts
  { id := "generated_999",
    name := toString target ++ "-Day Optimized Tour",
    days := target,
    price := (price : ℚ),
    destinations := destinations,
    interests := interests,
    activities := st.acts,
    explanation := "Custom " ++ toString target ++
      "-day itinerary with optimized route through " ++
      String.intercalate ", " (destinations.take 3) ++
      (if 3 < destinations.length then "..." else "") ++
      ". Activities grouped by location for efficient travel." }

/-- Copying an activity dictionary and reassigning its day
(`act.copy(); act['day'] = current_day`). -/
def setDay (d : ℕ) (a : Activity) : Activity := { a with day := d }

/-- The up-to-three activities the optimizer emits for one local day offset
`k` of a city: one from each time-of-day bucket that still has an entry at
index `k`, in Morning, Afternoon, Evening order, each copied with its day
reassigned to `d`. -/
def optActs (m a e : List Activity) (k d : ℕ) : List Activity :=
  ((m.get? k).map (setDay d)).toList ++ ((a.get? k).map (setDay d)).toList ++
    ((e.get? k).map (setDay d)).toList

/-- The `for day_offset in range(days_in_city)` loop of
`optimize_activity_order`: `n` is the number of remaining offsets, `k` the
current offset, `day` the global day counter; the loop breaks as soon as the
day counter passes `target`. Returns the emitted activities and the final
day counter. -/
def emitOffsets (m a e : List Activity) (target : ℕ) :
    ℕ → ℕ → ℕ → List Activity × ℕ
  | 0, _, day => ([], day)
  | n + 1, k, day =>
    if target < day then ([], day)
    else
      let here := optActs m a e k day
      let r := emitOffsets m a e target n (k + 1) (day + 1)
      (here ++ r.1, r.2)

/-- Processing of one city group in `optimize_activity_order`: split the
group into Morning/Afternoon/Evening buckets and walk
`max` -of-the-bucket-sizes local day offsets. -/
def emitCity (g : List Activity) (target day : ℕ) : List Activity × ℕ :=
  let m := g.filter (fun x => x.time = "Morning")
  let a := g.filter (fun x => x.time = "Afternoon")
  let e := g.filter (fun x => x.time = "Evening")
  emitOffsets m a e target (max m.length (max a.length e.length)) 0 day

/-- The walk over cities in first-appearance order in
`optimize_activity_order`; each city's group is the sublist of `acts` with
that city, and the walk breaks once the day counter passes `target`. -/
def walkCities (acts : List Activity) (target : ℕ) :
    List String → ℕ → List Activity × ℕ
  | [], day => ([], day)
  | c :: rest, day =>
    let r := emitCity (acts.filter (fun x => x.city = c)) target day
    if target < r.2 then r
    else
      let r2 := walkCities acts target rest r.2
      (r.1 ++ r2.1, r2.2)

/-- Structural worker for `extendLoop`; the fuel starts at
`target + 1 - day`, the exact number of remaining loop iterations. -/
def extendAux (acts3 : List Activity) (target : ℕ) : ℕ → ℕ → List Activity
  | 0, _ => []
  | fuel + 1, day =>
    if day ≤ target then acts3.map (setDay day) ++ extendAux acts3 target fuel (day + 1)
    else []

/-- The `while current_day <= target_days` extension loop of
`optimize_activity_order`: repeat the given (first-three) activities of the
last city, copied onto each remaining day. -/
def extendLoop (acts3 : List Activity) (target : ℕ) (day : ℕ) : List Activity :=
  extendAux acts3 target (target + 1 - day) day

/-- The route reordering pass `optimize_activity_order`: group by city in
first-appearance order, emit per-city days from the three time buckets,
extend with the last city's first three activities if days remain, and trim
any activity beyond `target`. The guard `if last_city and last_city in
city_activities` makes an empty-string last city falsy in Python, skipping
the extension; the embedding mirrors this with the `c = ""` test. -/
def optimize_activity_order (activities : List Activity) (target : ℕ) :
    List Activity :=
  let cityOrder := dedupCities activities
  let r := walkCities activities target cityOrder 1
  let out :=
    if r.2 ≤ target then
      match cityOrder.getLast? with
      | some c =>
        if c = "" then r.1
        else r.1 ++ extendLoop ((activities.filter (fun x => x.city = c)).take 3) target r.2
      | none => r.1
    else r.1
  out.filter (fun x => x.day ≤ target)

/-- The per-package score of the matcher loop in `find_best_plan`; `none`
models the two `continue` statements (excluded package, or a day mismatch
beyond one day). -/
def scorePackage (g : Goals) (p : Package) : Option ℤ :=
  if p.id ∈ g.excluded then none
  else
    let dayScore : Option ℤ :=
      if p.days = g.days then some 1000
      else if ((p.days : ℤ) - (g.days : ℤ)).natAbs ≤ 1 then some 100
      else none
    dayScore.map (fun ds =>
      let budgetScore : ℤ :=
        if p.price ≤ g.budget then 300
        else if p.price ≤ g.budget * mkRat 12 10 then 100
        else 0
      let interestScore : ℤ :=
        if g.interests = [] then 0
        else 50 * ((g.interests.toFinset ∩ p.interests.toFinset).card : ℤ)
      ds + budgetScore + interestScore)

/-- The matcher tracking loop of `find_best_plan`: walk the packages with
their index, starting from `best_match = None` and `best_score = -1`, and
replace the tracked best whenever a package scores strictly higher. -/
def matchGo (g : Goals) :
    List Package → ℕ → Option (ℕ × Package) → ℤ → Option (ℕ × Package) × ℤ
  | [], _, best, bs => (best, bs)
  | p :: rest, i, best, bs =>
    match scorePackage g p with
    | none => matchGo g rest (i + 1) best bs
    | some s =>
      if bs < s then matchGo g rest (i + 1) (some (i, p)) s
      else matchGo g rest (i + 1) best bs

/-- The complete matcher loop over a catalog. -/
def matchFold (g : Goals) (packages : List Package) : Option (ℕ × Package) × ℤ :=
  matchGo g packages 0 none (-1)

/-- The planning entry point `find_best_plan` (after goal parsing). Python
mutates the chosen catalog dictionary in place
(`best_match['activities'] = sorted_activities`); the embedding makes this
observable by returning the post-call catalog as the second component. -/
def find_best_plan (packages : List Package) (g : Goals) :
    PlanResult × List Package :=
  match matchFold g packages with
  | (some (i, p), bs) =>
    if p.days = g.days ∧ 1000 ≤ bs then
      let acts2 := optimize_activity_order p.activities g.days
      let p2 := { p with activities := acts2 }
      ({ package := p2, score := bs,
         explanation := "Perfect " ++ toString g.days ++
           "-day match with optimized location flow." },
       packages.set i p2)
    else
      let cp := generate_fallback_tour g.days g.budget g.interests
      ({ package := cp, score := 999, explanation := cp.explanation }, packages)
  | (none, _) =>
    let cp := generate_fallback_tour g.days g.budget g.interests
    ({ package := cp, score := 999, explanation := cp.explanation }, packages)

/-- Number of activities of a list assigned to day `d`. -/
def dayCount (l : List Activity) (d : ℕ) : ℕ :=
  (l.filter (fun a => a.day = d)).length

/-- Budget criterion exactly as the spec words it: full points within budget,
reduced points within 1.2 times the budget, none above. -/
def refBudgetScore (g : Goals) (p : Package) : ℤ :=
  if p.price ≤ g.budget then 300
  else if p.price ≤ g.budget * mkRat 12 10 then 100
  else 0

/-- Interest criterion exactly as the spec words it: 50 points per element
of the intersection of the goal tags with the package tags. -/
def refInterestScore (g : Goals) (p : Package) : ℤ :=
  50 * ((g.interests.toFinset ∩ p.interests.toFinset).card : ℤ)

/-- C3: for every package whose id is not excluded, the matcher's score
equals the reference definition: +1000 on an exact day match, +100 when the
day counts differ by exactly 1, disqualification (no score) otherwise, plus
the budget criterion and 50 points per shared interest tag. -/
theorem C3_thm (g : Goals) (p : Package) (h : ¬ p.id ∈ g.excluded) :
    scorePackage g p =
      (if p.days = g.days then
        some (1000 + refBudgetScore g p + refInterestScore g p)
      else if ((p.days : ℤ) - (g.days : ℤ)).natAbs = 1 then
        some (100 + refBudgetScore g p + refInterestScore g p)
      else none) := by
  unfold scorePackage
  rw [if_neg h]
  by_cases hd : p.days = g.days
  · simp only [hd, if_pos rfl, Option.map_some]
    by_cases hi : g.interests = [] <;>
      simp [hi, refBudgetScore, refInterestScore]
  · rw [if_neg hd, if_neg hd]
    by_cases h1 : ((p.days : ℤ) - (g.days : ℤ)).natAbs = 1
    · have hle : ((p.days : ℤ) - (g.days : ℤ)).natAbs ≤ 1 := le_of_eq h1
      simp only [if_pos hle, if_pos h1, Option.map_some]
      by_cases hi : g.interests = [] <;>
        simp [hi, refBudgetScore, refInterestScore]
    · have hgt : ¬ ((p.days : ℤ) - (g.days : ℤ)).natAbs ≤ 1 := by
        intro hle
        have hne : (p.days : ℤ) - (g.days : ℤ) ≠ 0 := by
          intro h0
          exact hd (by omega)
        omega
      simp [if_neg hgt, if_neg h1]

/-- Concrete instantiation of `C3_thm`: a non-excluded package with an exact
day match, price within budget and one shared tag scores 1350. -/
theorem C3_witness :
    ¬ (Package.id ⟨"p2", "N", 7, 1200, [], ["beach", "surf"], [], ""⟩) ∈
        (Goals.excluded ⟨7, 1500, ["beach", "culture"], ["x1"]⟩) ∧
      scorePackage ⟨7, 1500, ["beach", "culture"], ["x1"]⟩
        ⟨"p2", "N", 7, 1200, [], ["beach", "surf"], [], ""⟩ = some 1350 :=
  ⟨by decide, (C3_thm _ _ (by decide)).trans (by decide)⟩

/-- C8: on an empty catalog `find_best_plan` still returns a result: the
synthesized package with the fixed sentinel score 999 (and the catalog is
left unchanged). Totality of the embedding mirrors the absence of any
failure path in the Python function. -/
theorem C8_thm (g : Goals) :
    (find_best_plan [] g).1.score = 999 ∧
      (find_best_plan [] g).1.package =
        generate_fallback_tour g.days g.budget g.interests ∧
      (find_best_plan [] g).2 = [] :=
  ⟨rfl, rfl, rfl⟩

/-- C9: the planning computation is deterministic: equal catalogs and equal
goals give equal results (the embedding is a pure function; the Python code
uses no randomness or hidden state in `find_best_plan`). -/
theorem C9_thm (c1 c2 : List Package) (g1 g2 : Goals)
    (hc : c1 = c2) (hg : g1 = g2) :
    find_best_plan c1 g1 = find_best_plan c2 g2 := by
  rw [hc, hg]

/-- Concrete instantiation of `C9_thm` at the default goals and an empty
catalog. -/
theorem C9_witness :
    ([] : List Package) = [] ∧ (⟨7, 1500, [], []⟩ : Goals) = ⟨7, 1500, [], []⟩ ∧
      find_best_plan [] ⟨7, 1500, [], []⟩ = find_best_plan [] ⟨7, 1500, [], []⟩ :=
  ⟨rfl, rfl, C9_thm [] [] ⟨7, 1500, [], []⟩ ⟨7, 1500, [], []⟩ rfl rfl⟩

/-- C10: the interest list has no influence on the synthesizer's output
except that it is copied verbatim into the `interests` field: all other
fields agree for any two interest lists. -/
theorem C10_thm (target : ℕ) (b : ℚ) (i1 i2 : List String) :
    (generate_fallback_tour target b i1).days = (generate_fallback_tour target b i2).days ∧
    (generate_fallback_tour target b i1).price = (generate_fallback_tour target b i2).price ∧
    (generate_fallback_tour target b i1).destinations = (generate_fallback_tour target b i2).destinations ∧
    (generate_fallback_tour target b i1).activities = (generate_fallback_tour target b i2).activities ∧
    (generate_fallback_tour target b i1).id = (generate_fallback_tour target b i2).id ∧
    (generate_fallback_tour target b i1).name = (generate_fallback_tour target b i2).name ∧
    (generate_fallback_tour target b i1).explanation = (generate_fallback_tour target b i2).explanation ∧
    (generate_fallback_tour target b i1).interests = i1 :=
  ⟨rfl, rfl, rfl, rfl, rfl, rfl, rfl, rfl⟩

/-- The invariant that the running integer cost of the synthesizer state
equals the sum of the costs of the activities emitted so far. -/
def costInv (st : GenSt) : Prop :=
  (st.cost : ℚ) = (st.acts.map (fun a => a.cost)).sum

theorem slotEmit_day (city : String) (pool : List PoolEnt) (lat lon : ℚ)
    (idx : ℕ) (st : GenSt) :
    (slotEmit city pool lat lon idx st).2.day = st.day := rfl

theorem slotEmit_dayCount (city : String) (pool : List PoolEnt) (lat lon : ℚ)
    (idx : ℕ) (st : GenSt) (d : ℕ) :
    dayCount (slotEmit city pool lat lon idx st).2.acts d =
      dayCount st.acts d + (if st.day = d then 1 else 0) := by
  simp only [slotEmit, dayCount, List.filter_append, List.length_append]
  by_cases h : st.day = d <;> simp [h]

theorem slotEmit_costInv (city : String) (pool : List PoolEnt) (lat lon : ℚ)
    (idx : ℕ) (st : GenSt) (h : costInv st) :
    costInv (slotEmit city pool lat lon idx st).2 := by
  simp only [costInv, slotEmit, List.map_append, List.sum_append] at h ⊢
  push_cast
  rw [h]
  simp

theorem dayEmit_day (city : String) (pool : List PoolEnt) (lat lon : ℚ)
    (idx : ℕ) (st : GenSt) :
    (dayEmit city pool lat lon idx st).2.day = st.day + 1 := by
  simp only [dayEmit, slotEmit_day]

theorem dayEmit_dayCount (city : String) (pool : List PoolEnt) (lat lon : ℚ)
    (idx : ℕ) (st : GenSt) (d : ℕ) :
    dayCount (dayEmit city pool lat lon idx st).2.acts d =
      dayCount st.acts d + (if st.day = d then 3 else 0) := by
  simp only [dayEmit]
  have h3 : dayCount { (slotEmit city pool lat lon
      (slotEmit city pool lat lon (slotEmit city pool lat lon idx st).1
        (slotEmit city pool lat lon idx st).2).1
      (slotEmit city pool lat lon (slotEmit city pool lat lon idx st).1
        (slotEmit city pool lat lon idx st).2).2).2 with
      day := (slotEmit city pool lat lon
      (slotEmit city pool lat lon (slotEmit city pool lat lon idx st).1
        (slotEmit city pool lat lon idx st).2).1
      (slotEmit city pool lat lon (slotEmit city pool lat lon idx st).1
        (slotEmit city pool lat lon idx st).2).2).2.day + 1 }.acts d =
      dayCount (slotEmit city pool lat lon
      (slotEmit city pool lat lon (slotEmit city pool lat lon idx st).1
        (slotEmit city pool lat lon idx st).2).1
      (slotEmit city pool lat lon (slotEmit city pool lat lon idx st).1
        (slotEmit city pool lat lon idx st).2).2).2.acts d := rfl
  rw [h3]
  simp only [slotEmit_dayCount, slotEmit_day]
  by_cases h : st.day = d <;> simp [h]

theorem dayEmit_costInv (city : String) (pool : List PoolEnt) (lat lon : ℚ)
    (idx : ℕ) (st : GenSt) (h : costInv st) :
    costInv (dayEmit city pool lat lon idx st).2 := by
  simp only [dayEmit]
  have h3 := slotEmit_costInv city pool lat lon
    (slotEmit city pool lat lon (slotEmit city pool lat lon idx st).1
      (slotEmit city pool lat lon idx st).2).1
    (slotEmit city pool lat lon (slotEmit city pool lat lon idx st).1
      (slotEmit city pool lat lon idx st).2).2
    (slotEmit_costInv city pool lat lon (slotEmit city pool lat lon idx st).1
      (slotEmit city pool lat lon idx st).2
      (slotEmit_costInv city pool lat lon idx st h))
  exact h3

theorem daysEmit_spec (city : String) (pool : List PoolEnt) (lat lon : ℚ)
    (target : ℕ) :
    ∀ (n idx : ℕ) (st : GenSt), st.day + n ≤ target + 1 →
      (daysEmit city pool lat lon target n idx st).2.day = st.day + n ∧
      (∀ d, dayCount (daysEmit city pool lat lon target n idx st).2.acts d =
        dayCount st.acts d + (if st.day ≤ d ∧ d < st.day + n then 3 else 0)) ∧
      (costInv st → costInv (daysEmit city pool lat lon target n idx st).2)
  | 0, idx, st, _ => by
    refine ⟨rfl, fun d => ?_, fun h => h⟩
    have : ¬ (st.day ≤ d ∧ d < st.day + 0) := by omega
    simp [daysEmit, this]
  | n + 1, idx, st, h => by
    simp only [daysEmit]
    by_cases hbr : target < (dayEmit city pool lat lon idx st).2.day
    · rw [if_pos hbr]
      rw [dayEmit_day] at hbr
      have hn : n = 0 := by omega
      subst hn
      refine ⟨by rw [dayEmit_day], fun d => ?_, dayEmit_costInv city pool lat lon idx st⟩
      rw [dayEmit_dayCount]
      congr 1
      by_cases hd : st.day = d
      · rw [if_pos hd, if_pos (by omega)]
      · rw [if_neg hd, if_neg (by omega)]
    · rw [if_neg hbr]
      have hday := dayEmit_day city pool lat lon idx st
      have ih := daysEmit_spec city pool lat lon target n
        (dayEmit city pool lat lon idx st).1 (dayEmit city pool lat lon idx st).2
        (by omega)
      refine ⟨by rw [ih.1, hday]; omega, fun d => ?_,
        fun hc => ih.2.2 (dayEmit_costInv city pool lat lon idx st hc)⟩
      rw [ih.2.1 d, dayEmit_dayCount, hday]
      by_cases h1 : st.day = d <;> by_cases h2 : st.day + 1 ≤ d ∧ d < st.day + 1 + n <;>
        by_cases h3 : st.day ≤ d ∧ d < st.day + (n + 1) <;>
        simp [h1, h2, h3] <;> omega

theorem citiesEmit_spec (target : ℕ) :
    ∀ (alloc : List (String × ℕ)) (st : GenSt),
      st.day + ((alloc.map Prod.snd).sum) = target + 1 →
      (citiesEmit target alloc st).day = target + 1 ∧
      (∀ d, dayCount (citiesEmit target alloc st).acts d =
        dayCount st.acts d + (if st.day ≤ d ∧ d < target + 1 then 3 else 0)) ∧
      (costInv st → costInv (citiesEmit target alloc st))
  | [], st, h => by
    simp only [List.map_nil, List.sum_nil, Nat.add_zero] at h
    refine ⟨h, fun d => ?_, fun hc => hc⟩
    have : ¬ (st.day ≤ d ∧ d < target + 1) := by omega
    simp [citiesEmit, this]
  | (c, n) :: rest, st, h => by
    simp only [List.map_cons, List.sum_cons] at h
    simp only [citiesEmit]
    have hst0day : (GenSt.mk (st.route ++ [c]) st.acts st.cost st.used st.day).day = st.day := rfl
    have hd := daysEmit_spec c (BACKUP_ACTS c) (CITY_COORDS c).1 (CITY_COORDS c).2 target
      n 0 { st with route := st.route ++ [c] } (by simp only [hst0day]; omega)
    by_cases hbr : target <
        (daysEmit c (BACKUP_ACTS c) (CITY_COORDS c).1 (CITY_COORDS c).2 target n 0
          { st with route := st.route ++ [c] }).2.day
    · rw [if_pos hbr]
      rw [hd.1, hst0day] at hbr
      have heq : st.day + n = target + 1 := by omega
      refine ⟨by rw [hd.1, hst0day, heq], fun d => ?_, fun hc => hd.2.2 hc⟩
      rw [hd.2.1 d, hst0day]
      show dayCount st.acts d + _ = dayCount st.acts d + _
      congr 1
      rw [heq]
    · rw [if_neg hbr]
      rw [hd.1, hst0day] at hbr
      have ih := citiesEmit_spec target rest
        (daysEmit c (BACKUP_ACTS c) (CITY_COORDS c).1 (CITY_COORDS c).2 target n 0
          { st with route := st.route ++ [c] }).2
        (by rw [hd.1, hst0day]; omega)
      refine ⟨ih.1, fun d => ?_, fun hc => ih.2.2 (hd.2.2 hc)⟩
      rw [ih.2.1 d, hd.2.1 d, hst0day]
      simp only [hd.1, hst0day]
      show dayCount st.acts d + _ + _ = dayCount st.acts d + _
      by_cases h1 : st.day ≤ d ∧ d < st.day + n <;>
        by_cases h2 : st.day + n ≤ d ∧ d < target + 1 <;>
        by_cases h3 : st.day ≤ d ∧ d < target + 1 <;>
        simp [h1, h2, h3] <;> omega

theorem allocate_sum :
    ∀ (cities : List String) (target : ℕ), target ≤ 2 * cities.length →
      (((allocate cities target).map Prod.snd).sum) = target
  | [], target, h => by
    simp only [List.length_nil, Nat.mul_zero, Nat.le_zero] at h
    simp [allocate, h]
  | c :: rest, target, h => by
    by_cases h0 : target = 0
    · simp [allocate, h0]
    · simp only [allocate, if_neg h0]
      have hd2 : (if rest = [] then min target 2 else min 2 target) = min 2 target := by
        by_cases hr : rest = [] <;> simp [hr, Nat.min_comm]
      rw [hd2]
      simp only [List.map_cons, List.sum_cons]
      simp only [List.length_cons] at h
      have ih := allocate_sum rest (target - min 2 target) (by omega)
      omega

theorem backup_cities_length : BACKUP_CITIES.length = 10 := rfl

theorem selectCities_length (target : ℕ) :
    (selectCities target).length = (target + 1) / 2 := by
  unfold selectCities
  by_cases h : BACKUP_CITIES.length < (target + 1) / 2
  · rw [if_pos h]
    rw [List.length_take, List.length_flatten]
    rw [List.map_replicate]
    simp only [backup_cities_length]
    rw [List.sum_replicate, smul_eq_mul]
    rw [backup_cities_length] at h
    have := Nat.div_add_mod ((target + 1) / 2) 10
    have hmod : ((target + 1) / 2) % 10 < 10 := Nat.mod_lt _ (by omega)
    omega
  · rw [if_neg h]
    rw [List.length_take, backup_cities_length]
    rw [backup_cities_length] at h
    omega

/-- The synthesizer's primary walk always finishes exactly at day
`target + 1`, with exactly three activities on every day of `1..target` and
none outside, and its running cost equals the cost sum of the emitted
activities; the secondary phase is consequently never entered. -/
theorem fallbackState_spec (target : ℕ) :
    (fallbackState target).day = target + 1 ∧
      (∀ d, dayCount (fallbackState target).acts d =
        if 1 ≤ d ∧ d ≤ target then 3 else 0) ∧
      costInv (fallbackState target) := by
  have hcap : target ≤ 2 * (selectCities target).length := by
    rw [selectCities_length]; omega
  have hsum := allocate_sum (selectCities target) target hcap
  have hspec := citiesEmit_spec target (allocate (selectCities target) target)
    ⟨[], [], 0, [], 1⟩ (by rw [hsum]; exact Nat.add_comm 1 target)
  have hday : (citiesEmit target (allocate (selectCities target) target)
      ⟨[], [], 0, [], 1⟩).day = target + 1 := hspec.1
  have hguard : ¬ (citiesEmit target (allocate (selectCities target) target)
      ⟨[], [], 0, [], 1⟩).day ≤ target := by omega
  have hfb : fallbackState target =
      citiesEmit target (allocate (selectCities target) target) ⟨[], [], 0, [], 1⟩ := by
    unfold fallbackState
    rw [if_neg hguard]
  rw [hfb]
  refine ⟨hday, fun d => ?_, hspec.2.2 (by simp [costInv])⟩
  rw [hspec.2.1 d]
  show dayCount [] d + (if 1 ≤ d ∧ d < target + 1 then 3 else 0) = _
  simp only [dayCount, List.filter_nil, List.length_nil, Nat.zero_add]
  congr 1
  exact propext (and_congr_right fun _ => Nat.lt_succ_iff)

/-- C4: for every target of at least one day, the synthesizer's package has
exactly three activities on every day of `{1..targetDays}` and none on any
other day. -/
theorem C4_thm (target : ℕ) (h : 1 ≤ target) (b : ℚ) (I : List String) (d : ℕ) :
    dayCount (generate_fallback_tour target b I).activities d =
      if 1 ≤ d ∧ d ≤ target then 3 else 0 := by
  have hacts : (generate_fallback_tour target b I).activities =
      (fallbackState target).acts := rfl
  rw [hacts]
  exact (fallbackState_spec target).2.1 d

/-- Concrete instantiation of `C4_thm`: a one-day synthesized tour has three
activities on day 1. -/
theorem C4_witness :
    1 ≤ 1 ∧ dayCount (generate_fallback_tour 1 0 []).activities 1 = 3 :=
  ⟨Nat.le_refl 1, (C4_thm 1 (Nat.le_refl 1) 0 [] 1).trans (by decide)⟩

/-- C5 (amended): the synthesizer's returned price is the integer truncation
`int(target_budget)` of the budget when the accumulated activity cost sum is
below the budget, and the accumulated cost sum itself otherwise. -/
theorem C5_amended_thm (target : ℕ) (b : ℚ) (I : List String) :
    (generate_fallback_tour target b I).price =
      (if ((generate_fallback_tour target b I).activities.map (fun a => a.cost)).sum < b
       then ((pyInt b : ℤ) : ℚ)
       else ((generate_fallback_tour target b I).activities.map (fun a => a.cost)).sum) := by
  have hacts : (generate_fallback_tour target b I).activities =
      (fallbackState target).acts := rfl
  have hcost : ((fallbackState target).cost : ℚ) =
      (((fallbackState target).acts.map (fun a => a.cost)).sum) :=
    (fallbackState_spec target).2.2
  have hprice : (generate_fallback_tour target b I).price =
      (((if ((fallbackState target).cost : ℚ) < b then pyInt b
         else ((fallbackState target).cost : ℤ)) : ℤ) : ℚ) := rfl
  rw [hacts, hprice, ← hcost, apply_ite (fun z : ℤ => (z : ℚ))]
  congr 1

/-- C5 counterexample: with a one-day tour and a non-integral budget of
100.5, the raw activity cost (25) is below the budget, but the returned
price is `int(100.5) = 100`, not the budget exactly: Python truncates the
budget to an integer. -/
theorem C5_counterexample :
    ((fallbackState 1).cost : ℚ) < mkRat 201 2 ∧
      (generate_fallback_tour 1 (mkRat 201 2) []).price ≠ mkRat 201 2 := by
  constructor <;> decide

/-- Reference selection rule as the spec words it: the first element of the
eligible scored list attaining the maximum score (a later element replaces
the tracked best only when its score is strictly larger). -/
def firstMax : List (ℕ × Package × ℤ) → Option (ℕ × Package × ℤ)
  | [] => none
  | x :: xs =>
    match firstMax xs with
    | none => some x
    | some y => if x.2.2 < y.2.2 then some y else some x

/-- The eligible packages of a catalog together with their index and score,
in catalog order. -/
def scoredFrom (g : Goals) : ℕ → List Package → List (ℕ × Package × ℤ)
  | _, [] => []
  | i, p :: rest =>
    match scorePackage g p with
    | none => scoredFrom g (i + 1) rest
    | some s => (i, p, s) :: scoredFrom g (i + 1) rest

/-- Combining a tracked best with the first maximum of the remaining scored
entries. -/
def combineBest (best : Option (ℕ × Package)) (bs : ℤ) :
    Option (ℕ × Package × ℤ) → Option (ℕ × Package) × ℤ
  | none => (best, bs)
  | some (i, p, s) => if bs < s then (some (i, p), s) else (best, bs)

theorem matchGo_eq (g : Goals) :
    ∀ (ps : List Package) (i : ℕ) (best : Option (ℕ × Package)) (bs : ℤ),
      matchGo g ps i best bs = combineBest best bs (firstMax (scoredFrom g i ps))
  | [], i, best, bs => rfl
  | p :: rest, i, best, bs => by
    cases hs : scorePackage g p with
    | none => simpa only [matchGo, scoredFrom, hs] using matchGo_eq g rest (i + 1) best bs
    | some s =>
      simp only [matchGo, scoredFrom, hs]
      rw [matchGo_eq g rest (i + 1) (some (i, p)) s,
        matchGo_eq g rest (i + 1) best bs]
      simp only [firstMax]
      cases hfm : firstMax (scoredFrom g (i + 1) rest) with
      | none =>
        by_cases hc : bs < s <;> simp [combineBest, hc]
      | some y =>
        show (if bs < s then combineBest (some (i, p)) s (some y)
              else combineBest best bs (some y)) =
          combineBest best bs (if s < y.2.2 then some y else some (i, p, s))
        obtain ⟨j, q, t⟩ := y
        by_cases h1 : bs < s
        · rw [if_pos h1]
          by_cases h2 : s < t
          · rw [if_pos h2]
            show combineBest (some (i, p)) s (some (j, q, t)) =
              combineBest best bs (some (j, q, t))
            simp only [combineBest]
            rw [if_pos h2, if_pos (by omega : bs < t)]
          · rw [if_neg h2]
            show combineBest (some (i, p)) s (some (j, q, t)) =
              combineBest best bs (some (i, p, s))
            simp only [combineBest]
            rw [if_neg h2, if_pos h1]
        · rw [if_neg h1]
          by_cases h2 : s < t
          · rw [if_pos h2]
          · rw [if_neg h2]
            show combineBest best bs (some (j, q, t)) =
              combineBest best bs (some (i, p, s))
            simp only [combineBest]
            rw [if_neg (by omega : ¬ bs < t), if_neg (by omega : ¬ bs < s)]

theorem scoredFrom_scored (g : Goals) :
    ∀ (i : ℕ) (ps : List Package) (x : ℕ × Package × ℤ),
      x ∈ scoredFrom g i ps → scorePackage g x.2.1 = some x.2.2
  | i, [], x, hx => by simp [scoredFrom] at hx
  | i, p :: rest, x, hx => by
    simp only [scoredFrom] at hx
    cases hs : scorePackage g p with
    | none =>
      rw [hs] at hx
      exact scoredFrom_scored g (i + 1) rest x hx
    | some s =>
      rw [hs] at hx
      rcases List.mem_cons.mp hx with h | h
      · subst h; exact hs
      · exact scoredFrom_scored g (i + 1) rest x h

theorem scorePackage_ge (g : Goals) (p : Package) (s : ℤ)
    (h : scorePackage g p = some s) : 100 ≤ s := by
  unfold scorePackage at h
  by_cases he : p.id ∈ g.excluded
  · rw [if_pos he] at h; cases h
  · rw [if_neg he] at h
    by_cases hd : p.days = g.days
    · rw [if_pos hd] at h
      simp only [Option.map_some', Option.some_inj] at h
      split_ifs at h <;> omega
    · rw [if_neg hd] at h
      by_cases h1 : ((p.days : ℤ) - (g.days : ℤ)).natAbs ≤ 1
      · rw [if_pos h1] at h
        simp only [Option.map_some', Option.some_inj] at h
        split_ifs at h <;> omega
      · rw [if_neg h1] at h
        cases h

theorem firstMax_cons_isSome (x : ℕ × Package × ℤ) (xs : List (ℕ × Package × ℤ)) :
    (firstMax (x :: xs)).isSome := by
  rw [firstMax]
  cases firstMax xs with
  | none => rfl
  | some z => by_cases hc : x.2.2 < z.2.2 <;> simp [hc]

theorem firstMax_mem :
    ∀ (l : List (ℕ × Package × ℤ)) (y : ℕ × Package × ℤ),
      firstMax l = some y → y ∈ l
  | [], y, h => by cases h
  | x :: xs, y, h => by
    rw [firstMax] at h
    cases hfm : firstMax xs with
    | none =>
      rw [hfm] at h
      have h2 : some x = some y := h
      exact List.mem_cons.mpr (Or.inl (Option.some_inj.mp h2).symm)
    | some z =>
      rw [hfm] at h
      have h2 : (if x.2.2 < z.2.2 then some z else some x) = some y := h
      by_cases hc : x.2.2 < z.2.2
      · rw [if_pos hc] at h2
        have hz := firstMax_mem xs z hfm
        rw [← Option.some_inj.mp h2]
        exact List.mem_cons_of_mem x hz
      · rw [if_neg hc] at h2
        exact List.mem_cons.mpr (Or.inl (Option.some_inj.mp h2).symm)

theorem firstMax_le :
    ∀ (l : List (ℕ × Package × ℤ)) (y : ℕ × Package × ℤ),
      firstMax l = some y → ∀ x ∈ l, x.2.2 ≤ y.2.2
  | [], y, h => by cases h
  | x :: xs, y, h => by
    rw [firstMax] at h
    cases hfm : firstMax xs with
    | none =>
      rw [hfm] at h
      have h2 : some x = some y := h
      have hxs : xs = [] := by
        cases hxs : xs with
        | nil => rfl
        | cons a l =>
          rw [hxs] at hfm
          have := firstMax_cons_isSome a l
          rw [hfm] at this
          cases this
      subst hxs
      intro z hz
      rcases List.mem_cons.mp hz with h0 | h0
      · subst h0; rw [← Option.some_inj.mp h2]
      · cases h0
    | some w =>
      rw [hfm] at h
      have h2 : (if x.2.2 < w.2.2 then some w else some x) = some y := h
      intro z hz
      rcases List.mem_cons.mp hz with h0 | h0
      · subst h0
        by_cases hc : z.2.2 < w.2.2
        · rw [if_pos hc] at h2
          rw [← Option.some_inj.mp h2]
          omega
        · rw [if_neg hc] at h2
          rw [← Option.some_inj.mp h2]
      · have hw := firstMax_le xs w hfm z h0
        by_cases hc : x.2.2 < w.2.2
        · rw [if_pos hc] at h2
          rw [← Option.some_inj.mp h2]
          exact hw
        · rw [if_neg hc] at h2
          rw [← Option.some_inj.mp h2]
          omega

theorem matchFold_eq (g : Goals) (ps : List Package) :
    matchFold g ps =
      (match firstMax (scoredFrom g 0 ps) with
       | none => (none, -1)
       | some (i, p, s) => (some (i, p), s)) := by
  unfold matchFold
  rw [matchGo_eq]
  cases hfm : firstMax (scoredFrom g 0 ps) with
  | none => rfl
  | some y =>
    obtain ⟨i, p, s⟩ := y
    have hy := firstMax_mem _ _ hfm
    have hsc := scoredFrom_scored g 0 ps _ hy
    have hge := scorePackage_ge g p s hsc
    simp only [combineBest]
    rw [if_pos (by omega : (-1 : ℤ) < s)]

/-- C2 (amended): the matcher loop tracks exactly the first maximum-scoring
eligible package in catalog order (strictly larger scores replace the best,
so ties keep the first encountered), and the match is accepted if and only
if a best package exists with `days = targetDays` and score at least 1000.
The exact-day bonus alone contributes exactly 1000, so acceptance does not
require any further criterion to have scored. -/
theorem C2_amended_thm (catalog : List Package) (g : Goals) :
    (matchFold g catalog =
      (match firstMax (scoredFrom g 0 catalog) with
       | none => (none, -1)
       | some (i, p, s) => (some (i, p), s))) ∧
    (∀ y, firstMax (scoredFrom g 0 catalog) = some y →
      y ∈ scoredFrom g 0 catalog ∧ ∀ x ∈ scoredFrom g 0 catalog, x.2.2 ≤ y.2.2) ∧
    ((find_best_plan catalog g).1.score ≠ 999 ↔
      ∃ i p s, firstMax (scoredFrom g 0 catalog) = some (i, p, s) ∧
        p.days = g.days ∧ 1000 ≤ s) := by
  refine ⟨matchFold_eq g catalog,
    fun y hy => ⟨firstMax_mem _ y hy, firstMax_le _ y hy⟩, ?_⟩
  have hm := matchFold_eq g catalog
  cases hfm : firstMax (scoredFrom g 0 catalog) with
  | none =>
    rw [hfm] at hm
    simp only [find_best_plan, hm]
    constructor
    · intro hne; exact absurd rfl hne
    · rintro ⟨i, p, s, hsome, -⟩; cases hsome
  | some y =>
    obtain ⟨i, p, s⟩ := y
    rw [hfm] at hm
    simp only [find_best_plan, hm]
    by_cases hcond : p.days = g.days ∧ 1000 ≤ s
    · rw [if_pos hcond]
      constructor
      · intro _; exact ⟨i, p, s, rfl, hcond⟩
      · intro _
        show s ≠ 999
        omega
    · rw [if_neg hcond]
      constructor
      · intro hne; exact absurd rfl hne
      · rintro ⟨i2, p2, s2, hsome, hd2, hs2⟩
        have htup := Option.some_inj.mp hsome
        have h1 : i = i2 := congrArg Prod.fst htup
        have h2 : p = p2 := congrArg (fun z => z.2.1) htup
        have h3 : s = s2 := congrArg (fun z => z.2.2) htup
        subst h1; subst h2; subst h3
        exact absurd ⟨hd2, hs2⟩ hcond

/-- C2 counterexample: a catalog package with an exact day match but a price
beyond 1.2 times the budget and no shared interest tag scores exactly 1000
(the day bonus alone) and is nevertheless accepted by `find_best_plan` — the
claim's reading that acceptance needs the day bonus plus at least one other
scored criterion is false. -/
theorem C2_counterexample :
    scorePackage ⟨5, 100, [], []⟩ ⟨"p1", "P", 5, 10000, [], [], [], ""⟩ = some 1000 ∧
    (find_best_plan [⟨"p1", "P", 5, 10000, [], [], [], ""⟩] ⟨5, 100, [], []⟩).1.score = 1000 ∧
    ¬ ((10000 : ℚ) ≤ (100 : ℚ)) ∧
    ¬ ((10000 : ℚ) ≤ (100 : ℚ) * mkRat 12 10) ∧
    (([] : List String).toFinset ∩ ([] : List String).toFinset).card = 0 := by
  have hb1 : ¬ ((10000 : ℚ) ≤ (100 : ℚ)) := by norm_num
  have hb2 : ¬ ((10000 : ℚ) ≤ (100 : ℚ) * mkRat 12 10) := by
    rw [Rat.mkRat_eq_div]
    norm_num
  have hs : scorePackage ⟨5, 100, [], []⟩ ⟨"p1", "P", 5, 10000, [], [], [], ""⟩ =
      some 1000 := by
    unfold scorePackage
    rw [if_neg (by simp : ¬ ("p1" : String) ∈ ([] : List String))]
    rw [if_pos (rfl : (5 : ℕ) = 5)]
    simp only [Option.map_some', Option.some_inj]
    rw [if_neg hb1, if_neg hb2]
    simp
  have hmg : matchFold ⟨5, 100, [], []⟩ [⟨"p1", "P", 5, 10000, [], [], [], ""⟩] =
      (some (0, ⟨"p1", "P", 5, 10000, [], [], [], ""⟩), 1000) := by
    unfold matchFold matchGo
    rw [hs]
    rfl
  refine ⟨hs, ?_, hb1, hb2, rfl⟩
  simp only [find_best_plan, hmg]
  norm_num

/-- C1 counterexample: a catalog whose single package is accepted comes back
from `find_best_plan` with that package's activity sequence replaced (the
Python code assigns `best_match['activities'] = sorted_activities` on the
dictionary stored in the caller's list), so the post-call catalog differs
from the pre-call catalog. -/
theorem C1_counterexample :
    (find_best_plan [⟨"p1", "P", 2, 0, [], [],
        [⟨2, "Morning", "x", "A", 0, 0, 0⟩], ""⟩] ⟨2, 100, [], []⟩).2 ≠
      [⟨"p1", "P", 2, 0, [], [], [⟨2, "Morning", "x", "A", 0, 0, 0⟩], ""⟩] ∧
    (find_best_plan [⟨"p1", "P", 2, 0, [], [],
        [⟨2, "Morning", "x", "A", 0, 0, 0⟩], ""⟩] ⟨2, 100, [], []⟩).1.score = 1300 := by
  constructor <;> decide

/-- C1 (amended): `find_best_plan` leaves the catalog unchanged on
rejection, but on acceptance it mutates the chosen package in place: the
post-call catalog is the pre-call catalog with the chosen package's
`activities` field replaced by the reordered list, and the returned package
is that same mutated package. All other packages and all other fields of
the chosen package are unchanged. -/
theorem C1_amended_thm (catalog : List Package) (g : Goals) :
    ((find_best_plan catalog g).1.score = 999 → (find_best_plan catalog g).2 = catalog) ∧
    ((find_best_plan catalog g).1.score ≠ 999 →
      ∃ i p s, matchFold g catalog = (some (i, p), s) ∧
        (find_best_plan catalog g).2 =
          catalog.set i { p with activities := optimize_activity_order p.activities g.days } ∧
        (find_best_plan catalog g).1.package =
          { p with activities := optimize_activity_order p.activities g.days }) := by
  cases hm : matchFold g catalog with
  | mk obest bs =>
    cases obest with
    | none =>
      have he : find_best_plan catalog g =
          ({ package := generate_fallback_tour g.days g.budget g.interests,
             score := 999,
             explanation := (generate_fallback_tour g.days g.budget g.interests).explanation },
           catalog) := by
        unfold find_best_plan
        rw [hm]
      rw [he]
      exact ⟨fun _ => rfl, fun hne => absurd rfl hne⟩
    | some ip =>
      obtain ⟨i, p⟩ := ip
      by_cases hcond : p.days = g.days ∧ 1000 ≤ bs
      · have he : find_best_plan catalog g =
            ({ package := { p with activities := optimize_activity_order p.activities g.days },
               score := bs,
               explanation := "Perfect " ++ toString g.days ++
                 "-day match with optimized location flow." },
             catalog.set i { p with activities := optimize_activity_order p.activities g.days }) := by
          unfold find_best_plan
          simp only [hm]
          rw [if_pos hcond]
        rw [he]
        exact ⟨fun h999 => absurd h999 (show bs ≠ 999 by omega),
          fun _ => ⟨i, p, bs, rfl, rfl, rfl⟩⟩
      · have he : find_best_plan catalog g =
            ({ package := generate_fallback_tour g.days g.budget g.interests,
               score := 999,
               explanation := (generate_fallback_tour g.days g.budget g.interests).explanation },
             catalog) := by
          unfold find_best_plan
          simp only [hm]
          rw [if_neg hcond]
        rw [he]
        exact ⟨fun _ => rfl, fun hne => absurd rfl hne⟩

/-- A list of activities covers the day window `[lo, hi)`: every day in the
window carries between 1 and 3 activities and every day outside carries
none. -/
def Covers (l : List Activity) (lo hi : ℕ) : Prop :=
  ∀ d, (lo ≤ d ∧ d < hi → 1 ≤ dayCount l d ∧ dayCount l d ≤ 3) ∧
    (¬ (lo ≤ d ∧ d < hi) → dayCount l d = 0)

theorem dayCount_append (l1 l2 : List Activity) (d : ℕ) :
    dayCount (l1 ++ l2) d = dayCount l1 d + dayCount l2 d := by
  simp [dayCount, List.filter_append]

theorem Covers_nil (lo hi : ℕ) (h : hi ≤ lo) : Covers [] lo hi := by
  intro d
  exact ⟨fun hd => absurd hd (by omega), fun _ => rfl⟩

theorem Covers_append {l1 l2 : List Activity} {lo mid hi : ℕ}
    (h1 : Covers l1 lo mid) (h2 : Covers l2 mid hi)
    (hlm : lo ≤ mid) (hmh : mid ≤ hi) : Covers (l1 ++ l2) lo hi := by
  intro d
  have c1 := h1 d
  have c2 := h2 d
  constructor
  · rintro ⟨hd1, hd2⟩
    rw [dayCount_append]
    by_cases hmid : d < mid
    · have hin := c1.1 ⟨hd1, hmid⟩
      have h0 := c2.2 (by omega)
      omega
    · have hin := c2.1 ⟨by omega, hd2⟩
      have h0 := c1.2 (by omega)
      omega
  · intro hout
    rw [dayCount_append]
    have o1 := c1.2 (by omega)
    have o2 := c2.2 (by omega)
    omega

theorem dayCount_of_all (l : List Activity) (d0 : ℕ)
    (h : ∀ x ∈ l, x.day = d0) (d : ℕ) :
    dayCount l d = if d0 = d then l.length else 0 := by
  by_cases hd : d0 = d
  · subst hd
    rw [if_pos rfl]
    unfold dayCount
    rw [List.filter_eq_self.mpr (by intro x hx; simpa using h x hx)]
  · rw [if_neg hd]
    unfold dayCount
    have hnil : l.filter (fun x => x.day = d) = [] := by
      rw [List.filter_eq_nil_iff]
      intro x hx
      simp [h x hx, hd]
    rw [hnil]
    rfl

theorem Covers_single (l : List Activity) (d : ℕ)
    (h : ∀ x ∈ l, x.day = d) (h1 : 1 ≤ l.length) (h3 : l.length ≤ 3) :
    Covers l d (d + 1) := by
  intro d'
  rw [dayCount_of_all l d h d']
  constructor
  · rintro ⟨a1, a2⟩
    have hdd : d = d' := by omega
    rw [if_pos hdd]
    omega
  · intro hn
    have hdd : ¬ d = d' := by omega
    rw [if_neg hdd]

theorem mem_optActs (m a e : List Activity) (k d : ℕ) (x : Activity)
    (hx : x ∈ optActs m a e k d) :
    x.day = d ∧ ∃ b, (b ∈ m ∨ b ∈ a ∨ b ∈ e) ∧ x = setDay d b := by
  simp only [optActs, List.mem_append] at hx
  rcases hx with (hx | hx) | hx
  · cases hk : m.get? k with
    | none => rw [hk] at hx; cases hx
    | some b =>
      rw [hk] at hx
      simp only [Option.map_some', Option.toList_some, List.mem_singleton] at hx
      subst hx
      exact ⟨rfl, b, Or.inl (List.get?_mem hk), rfl⟩
  · cases hk : a.get? k with
    | none => rw [hk] at hx; cases hx
    | some b =>
      rw [hk] at hx
      simp only [Option.map_some', Option.toList_some, List.mem_singleton] at hx
      subst hx
      exact ⟨rfl, b, Or.inr (Or.inl (List.get?_mem hk)), rfl⟩
  · cases hk : e.get? k with
    | none => rw [hk] at hx; cases hx
    | some b =>
      rw [hk] at hx
      simp only [Option.map_some', Option.toList_some, List.mem_singleton] at hx
      subst hx
      exact ⟨rfl, b, Or.inr (Or.inr (List.get?_mem hk)), rfl⟩

theorem optActs_length_le (m a e : List Activity) (k d : ℕ) :
    (optActs m a e k d).length ≤ 3 := by
  simp only [optActs, List.length_append]
  cases m.get? k <;> cases a.get? k <;> cases e.get? k <;> simp

theorem optActs_length_pos (m a e : List Activity) (k d : ℕ)
    (h : k < max m.length (max a.length e.length)) :
    1 ≤ (optActs m a e k d).length := by
  simp only [optActs, List.length_append]
  by_cases h1 : k < m.length
  · cases hk : m.get? k with
    | none => exact absurd (List.get?_eq_none.mp hk) (by omega)
    | some b =>
      simp only [Option.map_some', Option.toList_some, List.length_singleton]
      omega
  · by_cases h2 : k < a.length
    · cases hk : a.get? k with
      | none => exact absurd (List.get?_eq_none.mp hk) (by omega)
      | some b =>
        simp only [Option.map_some', Option.toList_some, List.length_singleton]
        omega
    · by_cases h3 : k < e.length
      · cases hk : e.get? k with
        | none => exact absurd (List.get?_eq_none.mp hk) (by omega)
        | some b =>
          simp only [Option.map_some', Option.toList_some, List.length_singleton]
          omega
      · exfalso
        have : max m.length (max a.length e.length) ≤ k :=
          Nat.max_le.mpr ⟨by omega, Nat.max_le.mpr ⟨by omega, by omega⟩⟩
        omega

theorem optActs_all_day (m a e : List Activity) (k d : ℕ) :
    ∀ x ∈ optActs m a e k d, x.day = d :=
  fun x hx => (mem_optActs m a e k d x hx).1

theorem emitOffsets_day (m a e : List Activity) (target : ℕ) :
    ∀ (n k day : ℕ),
      (emitOffsets m a e target n k day).2 = day + min n (target + 1 - day)
  | 0, k, day => by simp [emitOffsets]
  | n + 1, k, day => by
    simp only [emitOffsets]
    by_cases hbr : target < day
    · rw [if_pos hbr]
      have h0 : target + 1 - day = 0 := by omega
      simp [h0]
    · rw [if_neg hbr]
      show (emitOffsets m a e target n (k + 1) (day + 1)).2 = _
      rw [emitOffsets_day m a e target n (k + 1) (day + 1)]
      omega

theorem emitOffsets_covers (m a e : List Activity) (target : ℕ) :
    ∀ (n k day : ℕ), k + n = max m.length (max a.length e.length) →
      Covers (emitOffsets m a e target n k day).1 day
        (emitOffsets m a e target n k day).2
  | 0, k, day, _ => by
    simp only [emitOffsets]
    exact Covers_nil day day (le_refl day)
  | n + 1, k, day, h => by
    simp only [emitOffsets]
    by_cases hbr : target < day
    · rw [if_pos hbr]
      exact Covers_nil day day (le_refl day)
    · rw [if_neg hbr]
      have hk : k < max m.length (max a.length e.length) := by omega
      have hhere : Covers (optActs m a e k day) day (day + 1) :=
        Covers_single _ day (optActs_all_day m a e k day)
          (optActs_length_pos m a e k day hk) (optActs_length_le m a e k day)
      have hrest := emitOffsets_covers m a e target n (k + 1) (day + 1) (by omega)
      have hd2 := emitOffsets_day m a e target n (k + 1) (day + 1)
      exact Covers_append hhere hrest (Nat.le_succ day) (by omega)

theorem emitOffsets_mem (m a e : List Activity) (target : ℕ) :
    ∀ (n k day : ℕ) (x : Activity), x ∈ (emitOffsets m a e target n k day).1 →
      ∃ b, (b ∈ m ∨ b ∈ a ∨ b ∈ e) ∧ x = setDay x.day b
  | 0, k, day, x, hx => by simp [emitOffsets] at hx
  | n + 1, k, day, x, hx => by
    simp only [emitOffsets] at hx
    by_cases hbr : target < day
    · rw [if_pos hbr] at hx; cases hx
    · rw [if_neg hbr] at hx
      have hx2 : x ∈ optActs m a e k day ++
          (emitOffsets m a e target n (k + 1) (day + 1)).1 := hx
      rcases List.mem_append.mp hx2 with hx3 | hx3
      · obtain ⟨hd, b, hb, hxb⟩ := mem_optActs m a e k day x hx3
        exact ⟨b, hb, by rw [hd]; exact hxb⟩
      · exact emitOffsets_mem m a e target n (k + 1) (day + 1) x hx3

theorem emitCity_day (g : List Activity) (target day : ℕ) :
    (emitCity g target day).2 =
      day + min (max (g.filter (fun x => x.time = "Morning")).length
        (max (g.filter (fun x => x.time = "Afternoon")).length
          (g.filter (fun x => x.time = "Evening")).length)) (target + 1 - day) := by
  unfold emitCity
  exact emitOffsets_day _ _ _ _ _ _ _

theorem emitCity_covers (g : List Activity) (target day : ℕ) :
    Covers (emitCity g target day).1 day (emitCity g target day).2 := by
  unfold emitCity
  exact emitOffsets_covers _ _ _ _ _ 0 _ (Nat.zero_add _)

theorem emitCity_mem (g : List Activity) (target day : ℕ) (x : Activity)
    (hx : x ∈ (emitCity g target day).1) : ∃ b ∈ g, x = setDay x.day b := by
  unfold emitCity at hx
  obtain ⟨b, hb, hxb⟩ := emitOffsets_mem _ _ _ _ _ _ _ x hx
  rcases hb with hb | hb | hb <;>
    exact ⟨b, (List.mem_filter.mp hb).1, hxb⟩

theorem walkCities_spec (acts : List Activity) (target : ℕ) :
    ∀ (order : List String) (day : ℕ), day ≤ target + 1 →
      Covers (walkCities acts target order day).1 day
        (walkCities acts target order day).2 ∧
      day ≤ (walkCities acts target order day).2 ∧
      (walkCities acts target order day).2 ≤ target + 1
  | [], day, h => by
    simp only [walkCities]
    exact ⟨Covers_nil day day (le_refl day), le_refl day, h⟩
  | c :: rest, day, h => by
    simp only [walkCities]
    have hday := emitCity_day (acts.filter (fun x => x.city = c)) target day
    have hcov := emitCity_covers (acts.filter (fun x => x.city = c)) target day
    by_cases hbr : target < (emitCity (acts.filter (fun x => x.city = c)) target day).2
    · rw [if_pos hbr]
      exact ⟨hcov, by omega, by omega⟩
    · rw [if_neg hbr]
      have ih := walkCities_spec acts target rest
        (emitCity (acts.filter (fun x => x.city = c)) target day).2 (by omega)
      refine ⟨Covers_append hcov ih.1 (by omega) ih.2.1, by omega, ih.2.2⟩

theorem walkCities_mem (acts : List Activity) (target : ℕ) :
    ∀ (order : List String) (day : ℕ) (x : Activity),
      x ∈ (walkCities acts target order day).1 → ∃ b ∈ acts, x = setDay x.day b
  | [], day, x, hx => by simp [walkCities] at hx
  | c :: rest, day, x, hx => by
    simp only [walkCities] at hx
    by_cases hbr : target < (emitCity (acts.filter (fun y => y.city = c)) target day).2
    · rw [if_pos hbr] at hx
      obtain ⟨b, hb, hxb⟩ := emitCity_mem _ target day x hx
      exact ⟨b, (List.mem_filter.mp hb).1, hxb⟩
    · rw [if_neg hbr] at hx
      have hx2 : x ∈ (emitCity (acts.filter (fun y => y.city = c)) target day).1 ++
          (walkCities acts target rest
            (emitCity (acts.filter (fun y => y.city = c)) target day).2).1 := hx
      rcases List.mem_append.mp hx2 with hx3 | hx3
      · obtain ⟨b, hb, hxb⟩ := emitCity_mem _ target day x hx3
        exact ⟨b, (List.mem_filter.mp hb).1, hxb⟩
      · exact walkCities_mem acts target rest _ x hx3

theorem extendAux_covers (acts3 : List Activity) (target : ℕ)
    (h1 : 1 ≤ acts3.length) (h3 : acts3.length ≤ 3) :
    ∀ (fuel day : ℕ), fuel = target + 1 - day →
      Covers (extendAux acts3 target fuel day) day (target + 1)
  | 0, day, h => by
    simp only [extendAux]
    exact Covers_nil day (target + 1) (by omega)
  | fuel + 1, day, h => by
    simp only [extendAux]
    rw [if_pos (by omega : day ≤ target)]
    have hmap : ∀ x ∈ acts3.map (setDay day), x.day = day := by
      intro x hx
      obtain ⟨b, _, hb⟩ := List.mem_map.mp hx
      rw [← hb]
      rfl
    have hhere : Covers (acts3.map (setDay day)) day (day + 1) :=
      Covers_single _ day hmap (by simpa using h1) (by simpa using h3)
    have hrest := extendAux_covers acts3 target h1 h3 fuel (day + 1) (by omega)
    exact Covers_append hhere hrest (Nat.le_succ day) (by omega)

theorem extendLoop_covers (acts3 : List Activity) (target day : ℕ)
    (h1 : 1 ≤ acts3.length) (h3 : acts3.length ≤ 3) :
    Covers (extendLoop acts3 target day) day (target + 1) :=
  extendAux_covers acts3 target h1 h3 _ day rfl

theorem extendAux_mem (acts3 : List Activity) (target : ℕ) :
    ∀ (fuel day : ℕ) (x : Activity), x ∈ extendAux acts3 target fuel day →
      ∃ b ∈ acts3, x = setDay x.day b
  | 0, day, x, hx => by simp [extendAux] at hx
  | fuel + 1, day, x, hx => by
    simp only [extendAux] at hx
    by_cases hd : day ≤ target
    · rw [if_pos hd] at hx
      rcases List.mem_append.mp hx with hx2 | hx2
      · obtain ⟨b, hb, hxb⟩ := List.mem_map.mp hx2
        refine ⟨b, hb, ?_⟩
        rw [← hxb]
        rfl
      · exact extendAux_mem acts3 target fuel (day + 1) x hx2
    · rw [if_neg hd] at hx
      cases hx

theorem dedupAux_mem :
    ∀ (fuel : ℕ) (l : List Activity) (c : String),
      c ∈ dedupAux fuel l → ∃ a ∈ l, a.city = c
  | fuel, [], c, h => by cases fuel <;> cases h
  | 0, a :: rest, c, h => by cases h
  | fuel + 1, a :: rest, c, h => by
    simp only [dedupAux] at h
    rcases List.mem_cons.mp h with h0 | h0
    · exact ⟨a, List.mem_cons_self a rest, h0.symm⟩
    · obtain ⟨b, hb, hbc⟩ := dedupAux_mem fuel _ c h0
      exact ⟨b, List.mem_cons_of_mem a (List.mem_filter.mp hb).1, hbc⟩

theorem dedupCities_mem (l : List Activity) (c : String)
    (h : c ∈ dedupCities l) : ∃ a ∈ l, a.city = c :=
  dedupAux_mem _ _ c h

theorem dedupCities_ne_nil (a : Activity) (rest : List Activity) :
    dedupCities (a :: rest) ≠ [] := by
  unfold dedupCities
  simp only [List.length_cons, dedupAux]
  exact List.cons_ne_nil _ _

theorem Covers_day_bounds {l : List Activity} {lo hi : ℕ} (h : Covers l lo hi) :
    ∀ x ∈ l, lo ≤ x.day ∧ x.day < hi := by
  intro x hx
  by_cases hin : lo ≤ x.day ∧ x.day < hi
  · exact hin
  · exfalso
    have h0 := (h x.day).2 hin
    have hmem : x ∈ l.filter (fun a => a.day = x.day) :=
      List.mem_filter.mpr ⟨hx, by simp⟩
    have hpos : 0 < dayCount l x.day :=
      List.length_pos.mpr (List.ne_nil_of_mem hmem)
    omega

/-- C6 (amended): the route-reordering pass on a non-empty activity list
with non-empty location names and a positive day target populates exactly
the days `1..targetDays` (between one and three activities on each, none
elsewhere), and every emitted activity is a day-reassigned copy of an input
activity. -/
theorem C6_amended_thm (acts : List Activity) (target : ℕ)
    (h1 : acts ≠ []) (h2 : 1 ≤ target) (h3 : ∀ x ∈ acts, ¬ (x.city = "")) :
    (∀ d, (1 ≤ d ∧ d ≤ target →
        1 ≤ dayCount (optimize_activity_order acts target) d ∧
        dayCount (optimize_activity_order acts target) d ≤ 3) ∧
      ((d < 1 ∨ target < d) → dayCount (optimize_activity_order acts target) d = 0)) ∧
    ∀ x ∈ optimize_activity_order acts target, ∃ b ∈ acts, x = setDay x.day b := by
  obtain ⟨hcov, hle1, hle2⟩ := walkCities_spec acts target (dedupCities acts) 1 (by omega)
  suffices h : ∃ out0, optimize_activity_order acts target = out0 ∧
      Covers out0 1 (target + 1) ∧ (∀ x ∈ out0, ∃ b ∈ acts, x = setDay x.day b) by
    obtain ⟨out0, heq, hcv, hmem⟩ := h
    rw [heq]
    refine ⟨fun d => ⟨fun hd => (hcv d).1 ⟨hd.1, by omega⟩,
      fun hd => (hcv d).2 (by omega)⟩, hmem⟩
  by_cases hbr : (walkCities acts target (dedupCities acts) 1).2 ≤ target
  · have hne : dedupCities acts ≠ [] := by
      cases acts with
      | nil => exact absurd rfl h1
      | cons a rest => exact dedupCities_ne_nil a rest
    obtain ⟨c, hc⟩ : ∃ c, (dedupCities acts).getLast? = some c := by
      cases hl : (dedupCities acts).getLast? with
      | none => exact absurd (by simpa using hl) hne
      | some c => exact ⟨c, rfl⟩
    have hcmem : c ∈ dedupCities acts := by
      obtain ⟨hx, heq2⟩ := List.mem_getLast?_eq_getLast
        (by simp [hc] : c ∈ (dedupCities acts).getLast?)
      rw [heq2]
      exact List.getLast_mem hx
    obtain ⟨b0, hb0, hb0c⟩ := dedupCities_mem acts c hcmem
    have hcne : ¬ (c = "") := by
      rw [← hb0c]
      exact h3 b0 hb0
    have hgrpne : acts.filter (fun x => x.city = c) ≠ [] :=
      List.ne_nil_of_mem (List.mem_filter.mpr ⟨hb0, by simp [hb0c]⟩)
    have hlen : 0 < (acts.filter (fun x => x.city = c)).length :=
      List.length_pos.mpr hgrpne
    have htake1 : 1 ≤ ((acts.filter (fun x => x.city = c)).take 3).length := by
      rw [List.length_take]
      omega
    have htake3 : ((acts.filter (fun x => x.city = c)).take 3).length ≤ 3 := by
      rw [List.length_take]
      omega
    have hext := extendLoop_covers ((acts.filter (fun x => x.city = c)).take 3) target
      (walkCities acts target (dedupCities acts) 1).2 htake1 htake3
    have hall : Covers ((walkCities acts target (dedupCities acts) 1).1 ++
        extendLoop ((acts.filter (fun x => x.city = c)).take 3) target
          (walkCities acts target (dedupCities acts) 1).2) 1 (target + 1) :=
      Covers_append hcov hext hle1 hle2
    refine ⟨_, ?_, hall, ?_⟩
    · simp only [optimize_activity_order]
      rw [if_pos hbr, hc]
      simp only [hcne, ite_false]
      apply List.filter_eq_self.mpr
      intro x hx
      have hb := Covers_day_bounds hall x hx
      simp only [decide_eq_true_eq]
      omega
    · intro x hx
      rcases List.mem_append.mp hx with hx2 | hx2
      · exact walkCities_mem acts target (dedupCities acts) 1 x hx2
      · obtain ⟨b, hb, hxb⟩ := extendAux_mem _ target _ _ x hx2
        exact ⟨b, (List.mem_filter.mp (List.mem_of_mem_take hb)).1, hxb⟩
  · have hfin : (walkCities acts target (dedupCities acts) 1).2 = target + 1 := by omega
    have hall : Covers (walkCities acts target (dedupCities acts) 1).1 1 (target + 1) := by
      rw [← hfin]
      exact hcov
    refine ⟨_, ?_, hall, fun x hx => walkCities_mem acts target (dedupCities acts) 1 x hx⟩
    simp only [optimize_activity_order]
    rw [if_neg (by omega)]
    apply List.filter_eq_self.mpr
    intro x hx
    have hb := Covers_day_bounds hall x hx
    simp only [decide_eq_true_eq]
    omega

/-- C6 counterexample: a single activity whose location name is the empty
string, with targetDays 2. Python's `if last_city and ...` guard treats the
empty-string city as falsy and skips the extension loop, so day 2 receives
no activities and the output does not span `{1, 2}`. -/
theorem C6_counterexample :
    ([⟨1, "Morning", "x", "", 0, 0, 0⟩] : List Activity) ≠ [] ∧ 1 ≤ 2 ∧
      dayCount (optimize_activity_order [⟨1, "Morning", "x", "", 0, 0, 0⟩] 2) 2 = 0 := by
  refine ⟨by decide, by decide, by decide⟩

/-- Concrete instantiation of `C6_amended_thm`: one activity, one target
day — day 1 carries between one and three activities. -/
theorem C6_witness :
    (([⟨1, "Morning", "m1", "A", 0, 0, 0⟩] : List Activity) ≠ [] ∧ 1 ≤ 1) ∧
      1 ≤ dayCount (optimize_activity_order [⟨1, "Morning", "m1", "A", 0, 0, 0⟩] 1) 1 ∧
      dayCount (optimize_activity_order [⟨1, "Morning", "m1", "A", 0, 0, 0⟩] 1) 1 ≤ 3 :=
  ⟨⟨by decide, by decide⟩,
    ((C6_amended_thm [⟨1, "Morning", "m1", "A", 0, 0, 0⟩] 1 (by decide) (by decide)
      (by decide)).1 1).1 ⟨by decide, by decide⟩⟩

/-- C7 counterexample: an input in one location ("A"), grouped contiguously,
with contiguous days `{1, 2}` (= targetDays) and at most one activity per
time slot per (day, location): day 1 has a Morning activity, day 2 has a
Morning and an Afternoon activity. The optimizer's afternoon bucket has the
day-2 activity at offset 0, so `optimize_activity_order` reassigns the
activity named "a2" from day 2 to day 1 — the day assignments are not
reproduced. -/
theorem C7_counterexample :
    (([⟨1, "Morning", "m1", "A", 0, 0, 0⟩, ⟨2, "Morning", "m2", "A", 0, 0, 0⟩,
       ⟨2, "Afternoon", "a2", "A", 0, 0, 0⟩] : List Activity).map
        (fun a => (a.city, a.day, a.time))).Nodup ∧
    (([⟨1, "Morning", "m1", "A", 0, 0, 0⟩, ⟨2, "Morning", "m2", "A", 0, 0, 0⟩,
       ⟨2, "Afternoon", "a2", "A", 0, 0, 0⟩] : List Activity).map (fun a => a.day)) =
      [1, 2, 2] ∧
    (([⟨1, "Morning", "m1", "A", 0, 0, 0⟩, ⟨2, "Morning", "m2", "A", 0, 0, 0⟩,
       ⟨2, "Afternoon", "a2", "A", 0, 0, 0⟩] : List Activity).filter
        (fun a => a.name = "a2")) = [⟨2, "Afternoon", "a2", "A", 0, 0, 0⟩] ∧
    ((optimize_activity_order [⟨1, "Morning", "m1", "A", 0, 0, 0⟩,
        ⟨2, "Morning", "m2", "A", 0, 0, 0⟩, ⟨2, "Afternoon", "a2", "A", 0, 0, 0⟩] 2).filter
        (fun a => a.name = "a2")) = [⟨1, "Afternoon", "a2", "A", 0, 0, 0⟩] := by
  refine ⟨by decide, by decide, by decide, by decide⟩

/-- One full itinerary day: a Morning, an Afternoon and an Evening
activity. -/
structure DayTriple where
  m : Activity
  a : Activity
  e : Activity
deriving DecidableEq

/-- The three activities of a day triple in Morning, Afternoon, Evening
order. -/
def tripleActs (t : DayTriple) : List Activity := [t.m, t.a, t.e]

/-- The activity list of one location block. -/
def blockActs (ts : List DayTriple) : List Activity := ts.flatMap tripleActs

/-- The activity list of a sequence of location blocks — the canonical
already-ordered shape: grouped contiguously by location, day-ascending, one
activity per slot per day. -/
def flattenBlocks (bs : List (String × List DayTriple)) : List Activity :=
  bs.flatMap (fun b => blockActs b.2)

/-- A day triple is well-formed for location `c` and day `d`: all three
activities are at `c` on day `d` with the three canonical time slots. -/
def TripleOK (c : String) (d : ℕ) (t : DayTriple) : Prop :=
  t.m.city = c ∧ t.a.city = c ∧ t.e.city = c ∧
  t.m.time = "Morning" ∧ t.a.time = "Afternoon" ∧ t.e.time = "Evening" ∧
  t.m.day = d ∧ t.a.day = d ∧ t.e.day = d

/-- A block's triples occupy consecutive days starting at `d`. -/
def DaysFrom (c : String) : ℕ → List DayTriple → Prop
  | _, [] => True
  | d, t :: ts => TripleOK c d t ∧ DaysFrom c (d + 1) ts

/-- A block sequence occupies consecutive days starting at `d`, each block
non-empty and well-formed for its location. -/
def BlocksFrom : ℕ → List (String × List DayTriple) → Prop
  | _, [] => True
  | d, (c, ts) :: rest => ts ≠ [] ∧ DaysFrom c d ts ∧ BlocksFrom (d + ts.length) rest

/-- Total number of days of a block sequence. -/
def blocksDays (bs : List (String × List DayTriple)) : ℕ :=
  (bs.map (fun b => b.2.length)).sum

theorem daysFrom_triple (c : String) :
    ∀ (d : ℕ) (ts : List DayTriple), DaysFrom c d ts →
      ∀ t ∈ ts, ∃ dd, TripleOK c dd t ∧ d ≤ dd ∧ dd < d + ts.length
  | d, [], _, t, ht => by cases ht
  | d, t0 :: ts, h, t, ht => by
    rcases List.mem_cons.mp ht with h0 | h0
    · subst h0
      exact ⟨d, h.1, le_refl d, by simp⟩
    · obtain ⟨dd, hok, hd1, hd2⟩ := daysFrom_triple c (d + 1) ts h.2 t h0
      exact ⟨dd, hok, by omega, by simp only [List.length_cons]; omega⟩

theorem mem_tripleActs {x : Activity} {t : DayTriple} (hx : x ∈ tripleActs t) :
    x = t.m ∨ x = t.a ∨ x = t.e := by
  simp only [tripleActs, List.mem_cons, List.mem_singleton] at hx
  tauto

theorem blockActs_city_day (c : String) (d : ℕ) (ts : List DayTriple)
    (h : DaysFrom c d ts) :
    ∀ x ∈ blockActs ts, x.city = c ∧ d ≤ x.day ∧ x.day < d + ts.length := by
  intro x hx
  obtain ⟨t, ht, hxt⟩ := List.mem_flatMap.mp hx
  obtain ⟨dd, hok, hd1, hd2⟩ := daysFrom_triple c d ts h t ht
  obtain ⟨hc1, hc2, hc3, ht1, ht2, ht3, hm, ha, he⟩ := hok
  rcases mem_tripleActs hxt with h0 | h0 | h0 <;> subst h0
  · exact ⟨hc1, by omega, by omega⟩
  · exact ⟨hc2, by omega, by omega⟩
  · exact ⟨hc3, by omega, by omega⟩

theorem flattenBlocks_city :
    ∀ (d : ℕ) (bs : List (String × List DayTriple)), BlocksFrom d bs →
      ∀ x ∈ flattenBlocks bs, x.city ∈ bs.map Prod.fst
  | d, [], _, x, hx => by cases hx
  | d, (c0, ts0) :: rest, h, x, hx => by
    have hx2 : x ∈ blockActs ts0 ++ flattenBlocks rest := hx
    rcases List.mem_append.mp hx2 with hx0 | hx0
    · have := (blockActs_city_day c0 d ts0 h.2.1 x hx0).1
      simp [this]
    · have := flattenBlocks_city (d + ts0.length) rest h.2.2 x hx0
      simp only [List.map_cons, List.mem_cons]
      exact Or.inr this

theorem flattenBlocks_days (d : ℕ) (bs : List (String × List DayTriple))
    (h : BlocksFrom d bs) :
    ∀ x ∈ flattenBlocks bs, d ≤ x.day ∧ x.day < d + blocksDays bs := by
  induction bs generalizing d with
  | nil => intro x hx; cases hx
  | cons b0 rest ih =>
    obtain ⟨c0, ts0⟩ := b0
    intro x hx
    rcases List.mem_append.mp hx with hx0 | hx0
    · have := blockActs_city_day c0 d ts0 h.2.1 x hx0
      simp only [blocksDays, List.map_cons, List.sum_cons]
      omega
    · have := ih (d + ts0.length) h.2.2 x hx0
      simp only [blocksDays, List.map_cons, List.sum_cons] at this ⊢
      omega

theorem dedupAux_blocks :
    ∀ (bs : List (String × List DayTriple)) (d fuel : ℕ),
      BlocksFrom d bs → (bs.map Prod.fst).Nodup →
      (flattenBlocks bs).length ≤ fuel →
      dedupAux fuel (flattenBlocks bs) = bs.map Prod.fst
  | [], d, fuel, _, _, _ => by cases fuel <;> rfl
  | (c, ts) :: rest, d, fuel, h, hnd, hfuel => by
    obtain ⟨hts, hdays, hrest⟩ := h
    obtain ⟨t, ts2, rfl⟩ : ∃ t ts2, ts = t :: ts2 := by
      cases ts with
      | nil => exact absurd rfl hts
      | cons t ts2 => exact ⟨t, ts2, rfl⟩
    have hflat : flattenBlocks ((c, t :: ts2) :: rest) =
        t.m :: (([t.a, t.e] ++ blockActs ts2) ++ flattenBlocks rest) := by
      show blockActs (t :: ts2) ++ flattenBlocks rest = _
      show (tripleActs t ++ blockActs ts2) ++ flattenBlocks rest = _
      simp [tripleActs]
    have hlen : 1 ≤ (flattenBlocks ((c, t :: ts2) :: rest)).length := by
      rw [hflat]
      simp
    obtain ⟨fuel2, rfl⟩ : ∃ fuel2, fuel = fuel2 + 1 := by
      cases fuel with
      | zero => omega
      | succ f => exact ⟨f, rfl⟩
    rw [hflat]
    simp only [dedupAux]
    have hcm : t.m.city = c := hdays.1.1
    have hblockc : ∀ x ∈ [t.a, t.e] ++ blockActs ts2, x.city = c := by
      intro x hx
      rcases List.mem_append.mp hx with hx0 | hx0
      · rcases List.mem_cons.mp hx0 with h0 | h0
        · subst h0; exact hdays.1.2.1
        · rw [List.mem_singleton.mp h0]; exact hdays.1.2.2.1
      · have : x ∈ blockActs (t :: ts2) := by
          show x ∈ tripleActs t ++ blockActs ts2
          exact List.mem_append.mpr (Or.inr hx0)
        exact (blockActs_city_day c d (t :: ts2) hdays x this).1
    have hrestc : ∀ x ∈ flattenBlocks rest, ¬ (x.city = t.m.city) := by
      intro x hx hxc
      have hmem := flattenBlocks_city (d + (t :: ts2).length) rest hrest x hx
      rw [hxc, hcm] at hmem
      have hnotin : c ∉ (rest.map Prod.fst) := by
        rw [List.map_cons, List.nodup_cons] at hnd
        exact hnd.1
      exact hnotin hmem
    have hfilter : (([t.a, t.e] ++ blockActs ts2) ++ flattenBlocks rest).filter
        (fun b => ¬ (b.city = t.m.city)) = flattenBlocks rest := by
      rw [List.filter_append]
      rw [List.filter_eq_nil_iff.mpr (by
        intro x hx
        simp only [decide_not, Bool.not_eq_true', decide_eq_false_iff_not, not_not]
        rw [hblockc x hx, hcm])]
      rw [List.filter_eq_self.mpr (by
        intro x hx
        simp only [decide_not, Bool.not_eq_true', decide_eq_false_iff_not]
        exact hrestc x hx)]
      rfl
    rw [hfilter]
    have hfuel2 : (flattenBlocks rest).length ≤ fuel2 := by
      rw [hflat] at hfuel
      simp only [List.length_cons, List.length_append] at hfuel
      omega
    have hnd2 : c ∉ rest.map Prod.fst ∧ (rest.map Prod.fst).Nodup := by
      rw [List.map_cons, List.nodup_cons] at hnd
      exact hnd
    rw [dedupAux_blocks rest (d + (t :: ts2).length) fuel2 hrest hnd2.2 hfuel2]
    simp [hcm]

theorem filter_blocks :
    ∀ (bs : List (String × List DayTriple)) (d : ℕ),
      BlocksFrom d bs → (bs.map Prod.fst).Nodup →
      ∀ cts ∈ bs, (flattenBlocks bs).filter (fun x => x.city = cts.1) = blockActs cts.2
  | [], d, _, _, cts, hmem => by cases hmem
  | (c0, ts0) :: rest, d, h, hnd, cts, hmem => by
    obtain ⟨hts, hdays, hrest⟩ := h
    have hnd2 : c0 ∉ rest.map Prod.fst ∧ (rest.map Prod.fst).Nodup := by
      rw [List.map_cons, List.nodup_cons] at hnd
      exact hnd
    have hsplit : flattenBlocks ((c0, ts0) :: rest) = blockActs ts0 ++ flattenBlocks rest := rfl
    rcases List.mem_cons.mp hmem with h0 | h0
    · rw [h0, hsplit, List.filter_append]
      rw [List.filter_eq_self.mpr (by
        intro x hx
        simp only [decide_eq_true_eq]
        exact (blockActs_city_day c0 d ts0 hdays x hx).1)]
      rw [List.filter_eq_nil_iff.mpr (by
        intro x hx
        simp only [decide_eq_true_eq]
        intro hxc
        have hmem2 := flattenBlocks_city (d + ts0.length) rest hrest x hx
        rw [hxc] at hmem2
        exact hnd2.1 hmem2)]
      exact List.append_nil _
    · rw [hsplit, List.filter_append]
      have hcne : ¬ (cts.1 = c0) := by
        intro heq
        have hin : cts.1 ∈ rest.map Prod.fst := List.mem_map.mpr ⟨cts, h0, rfl⟩
        rw [heq] at hin
        exact hnd2.1 hin
      rw [List.filter_eq_nil_iff.mpr (by
        intro x hx
        simp only [decide_eq_true_eq]
        intro hxc
        have hcx := (blockActs_city_day c0 d ts0 hdays x hx).1
        rw [hcx] at hxc
        exact hcne hxc.symm)]
      rw [filter_blocks rest (d + ts0.length) hrest hnd2.2 cts h0]
      exact List.nil_append _

theorem blockActs_buckets (c : String) :
    ∀ (d : ℕ) (ts : List DayTriple), DaysFrom c d ts →
      (blockActs ts).filter (fun x => x.time = "Morning") = ts.map DayTriple.m ∧
      (blockActs ts).filter (fun x => x.time = "Afternoon") = ts.map DayTriple.a ∧
      (blockActs ts).filter (fun x => x.time = "Evening") = ts.map DayTriple.e
  | d, [], _ => by refine ⟨rfl, rfl, rfl⟩
  | d, t :: ts, h => by
    obtain ⟨hc1, hc2, hc3, ht1, ht2, ht3, hm, ha, he⟩ := h.1
    have ih := blockActs_buckets c (d + 1) ts h.2
    have hsplit : blockActs (t :: ts) = [t.m, t.a, t.e] ++ blockActs ts := rfl
    refine ⟨?_, ?_, ?_⟩ <;>
      rw [hsplit, List.filter_append] <;>
      simp [List.filter_cons, ht1, ht2, ht3, ih.1, ih.2.1, ih.2.2]

theorem setDay_eq_self {x : Activity} {d : ℕ} (h : x.day = d) : setDay d x = x := by
  cases x
  simp only [setDay]
  simp_all

theorem blocksDays_pos (d : ℕ) (bs : List (String × List DayTriple))
    (h : BlocksFrom d bs) (hne : bs ≠ []) : 1 ≤ blocksDays bs := by
  cases bs with
  | nil => exact absurd rfl hne
  | cons b rest =>
    obtain ⟨c, ts⟩ := b
    have hts := h.1
    have : 1 ≤ ts.length := by
      cases ts with
      | nil => exact absurd rfl hts
      | cons t ts2 => simp
    simp only [blocksDays, List.map_cons, List.sum_cons]
    omega

theorem emitOffsets_triples (c : String) (all : List DayTriple) (target : ℕ) :
    ∀ (ts : List DayTriple) (k d : ℕ), all.drop k = ts → DaysFrom c d ts →
      d + ts.length ≤ target + 1 →
      emitOffsets (all.map DayTriple.m) (all.map DayTriple.a) (all.map DayTriple.e)
        target ts.length k d = (blockActs ts, d + ts.length)
  | [], k, d, hdrop, hdays, hle => by simp [emitOffsets, blockActs]
  | t :: ts, k, d, hdrop, hdays, hle => by
    have hget : all.get? k = some t := by
      have h0 : (all.drop k).get? 0 = some t := by rw [hdrop]; rfl
      rwa [List.get?_drop, Nat.add_zero] at h0
    obtain ⟨hc1, hc2, hc3, ht1, ht2, ht3, hm, ha, he⟩ := hdays.1
    simp only [List.length_cons, emitOffsets]
    rw [if_neg (by simp only [List.length_cons] at hle; omega : ¬ target < d)]
    have hdrop2 : all.drop (k + 1) = ts := by
      rw [← List.tail_drop, hdrop]
      rfl
    have hih := emitOffsets_triples c all target ts (k + 1) (d + 1) hdrop2 hdays.2
      (by simp only [List.length_cons] at hle; omega)
    have hopt : optActs (all.map DayTriple.m) (all.map DayTriple.a)
        (all.map DayTriple.e) k d = tripleActs t := by
      unfold optActs
      rw [List.get?_map, List.get?_map, List.get?_map, hget]
      simp only [Option.map_some', Option.toList_some]
      show [setDay d t.m] ++ [setDay d t.a] ++ [setDay d t.e] = _
      rw [setDay_eq_self hm, setDay_eq_self ha, setDay_eq_self he]
      rfl
    rw [hopt, hih]
    rw [show blockActs (t :: ts) = tripleActs t ++ blockActs ts from rfl]
    refine congrArg₂ Prod.mk rfl ?_
    omega

theorem walkCities_blocks (full : List Activity) (target : ℕ) :
    ∀ (bs : List (String × List DayTriple)) (d : ℕ),
      BlocksFrom d bs → d + blocksDays bs = target + 1 →
      (∀ cts ∈ bs, full.filter (fun x => x.city = cts.1) = blockActs cts.2) →
      walkCities full target (bs.map Prod.fst) d = (flattenBlocks bs, target + 1)
  | [], d, _, hsum, _ => by
    simp only [blocksDays, List.map_nil, List.sum_nil, Nat.add_zero] at hsum
    simp only [List.map_nil, walkCities]
    rw [hsum]
    rfl
  | (c, ts) :: rest, d, h, hsum, hfilter => by
    obtain ⟨hts, hdays, hrest⟩ := h
    have hbd : blocksDays rest = (rest.map (fun b => b.2.length)).sum := rfl
    have hsum2 : d + (ts.length + blocksDays rest) = target + 1 := by
      rw [hbd]
      simp only [blocksDays, List.map_cons, List.sum_cons] at hsum
      omega
    have hfilter0 : full.filter (fun x => x.city = c) = blockActs ts :=
      hfilter (c, ts) (List.mem_cons_self _ _)
    have hbuckets := blockActs_buckets c d ts hdays
    have hemit : emitCity (full.filter (fun x => x.city = c)) target d =
        (blockActs ts, d + ts.length) := by
      rw [hfilter0]
      simp only [emitCity]
      rw [hbuckets.1, hbuckets.2.1, hbuckets.2.2]
      rw [List.length_map, List.length_map, List.length_map,
        Nat.max_self, Nat.max_self]
      exact emitOffsets_triples c ts target ts 0 d (List.drop_zero ts) hdays (by omega)
    simp only [List.map_cons, walkCities]
    rw [hemit]
    have hp2 : ((blockActs ts, d + ts.length) : List Activity × ℕ).2 = d + ts.length := rfl
    have hp1 : ((blockActs ts, d + ts.length) : List Activity × ℕ).1 = blockActs ts := rfl
    rw [hp2, hp1]
    by_cases hrestnil : rest = []
    · subst hrestnil
      simp only [blocksDays, List.map_nil, List.sum_nil, Nat.add_zero] at hsum2
      rw [if_pos (by omega : target < d + ts.length)]
      rw [show flattenBlocks [(c, ts)] = blockActs ts ++ [] from rfl, List.append_nil]
      refine congrArg₂ Prod.mk rfl ?_
      omega
    · have hpos := blocksDays_pos (d + ts.length) rest hrest hrestnil
      rw [if_neg (by omega : ¬ target < d + ts.length)]
      rw [walkCities_blocks full target rest (d + ts.length) hrest (by omega)
        (fun cts hcts => hfilter cts (List.mem_cons_of_mem _ hcts))]
      rfl

/-- C7 (amended): on input in the canonical already-ordered shape — grouped
contiguously by distinct locations, within each location exactly one
Morning, one Afternoon and one Evening activity per day in day-ascending
order, days contiguous from 1 with total count `targetDays` — the route
reordering pass returns the activity list unchanged (in particular every
activity keeps its day assignment). -/
theorem C7_amended_thm (bs : List (String × List DayTriple)) (target : ℕ)
    (hb : BlocksFrom 1 bs) (hnd : (bs.map Prod.fst).Nodup)
    (hsum : blocksDays bs = target) (hne : bs ≠ []) :
    optimize_activity_order (flattenBlocks bs) target = flattenBlocks bs := by
  have hded : dedupCities (flattenBlocks bs) = bs.map Prod.fst :=
    dedupAux_blocks bs 1 _ hb hnd (le_refl _)
  have hwalk := walkCities_blocks (flattenBlocks bs) target bs 1 hb (by omega)
    (filter_blocks bs 1 hb hnd)
  simp only [optimize_activity_order]
  rw [hded, hwalk]
  have hcond : ¬ ((flattenBlocks bs, target + 1).2 ≤ target) := by
    show ¬ (target + 1 ≤ target)
    omega
  rw [if_neg hcond]
  apply List.filter_eq_self.mpr
  intro x hx
  have hx2 : x ∈ flattenBlocks bs := hx
  have hd := flattenBlocks_days 1 bs hb x hx2
  simp only [decide_eq_true_eq]
  omega

/-- Concrete instantiation of `C7_amended_thm`: a single canonical one-day
block is returned unchanged by the optimizer. -/
theorem C7_witness :
    BlocksFrom 1 [("A", [⟨⟨1, "Morning", "m", "A", 0, 0, 0⟩,
      ⟨1, "Afternoon", "a", "A", 0, 0, 0⟩, ⟨1, "Evening", "e", "A", 0, 0, 0⟩⟩])] ∧
    blocksDays [("A", [⟨⟨1, "Morning", "m", "A", 0, 0, 0⟩,
      ⟨1, "Afternoon", "a", "A", 0, 0, 0⟩, ⟨1, "Evening", "e", "A", 0, 0, 0⟩⟩])] = 1 ∧
    optimize_activity_order (flattenBlocks [("A", [⟨⟨1, "Morning", "m", "A", 0, 0, 0⟩,
      ⟨1, "Afternoon", "a", "A", 0, 0, 0⟩, ⟨1, "Evening", "e", "A", 0, 0, 0⟩⟩])]) 1 =
      flattenBlocks [("A", [⟨⟨1, "Morning", "m", "A", 0, 0, 0⟩,
        ⟨1, "Afternoon", "a", "A", 0, 0, 0⟩, ⟨1, "Evening", "e", "A", 0, 0, 0⟩⟩])] := by
  have hb : BlocksFrom 1 [("A", [⟨⟨1, "Morning", "m", "A", 0, 0, 0⟩,
      ⟨1, "Afternoon", "a", "A", 0, 0, 0⟩, ⟨1, "Evening", "e", "A", 0, 0, 0⟩⟩])] :=
    ⟨by decide, ⟨⟨rfl, rfl, rfl, rfl, rfl, rfl, rfl, rfl, rfl⟩, trivial⟩, trivial⟩
  exact ⟨hb, rfl, C7_amended_thm _ 1 hb (by decide) rfl (by decide)⟩

end TourAgent
